import Mathlib

/-! # The simulated scheduler: `oss.c` (coordinator) and `worker.c` (worker)

A shallow embedding of the coordinator's main loop and of the worker's
termination decision.

Conventions of the embedding.

* A C `int` is a Lean `Int`.  Every place where the source converts through
  `unsigned long long` (the macro `ONE_BILLION` is `1000000000ULL`, so each
  comparison, division and remainder against it is carried out on 64-bit
  unsigned values and the result is stored back into an `int`) is written out
  with `toUInt64` and `toInt32`.  Plain `int` arithmetic (`x + y`, `x++`,
  `x--`) is kept exact: signed overflow has no defined result in C.
* System calls are inputs of the loop body (`Input`): the result of the
  non-blocking `waitpid`, the two `rand()` draws, the result of `fork`, whether
  `msgsnd` / `msgrcv` succeeded and the `mtext` of the reply.
* A path that leaves the coordinator loop (`cleanup` followed by `exit`, the
  child branch of `fork`, a division by zero) is `none`.
* Log output and the variable `lastTableDisplayTime`, which only decides when a
  snapshot is printed, are not part of the state.
* The worker loop takes one `Wake` per message it waits for: whether `msgrcv`
  and `msgsnd` succeeded and the clock it read in between.
* The watchdog `alarm(60)` is real time and has no counterpart in the state.
  Statements that depend on the length of a run carry the number of completed
  iterations (`ReachableIn`).
-/

namespace Oss

/-- Capacity of `processTable` (`#define MAX_CHILDREN 20`). -/
abbrev MAX_CHILDREN : Nat := 20

/-- Nanoseconds per second (`#define ONE_BILLION 1000000000ULL`). -/
abbrev ONE_BILLION : Int := 1000000000

/-- Conversion of a value to a 32-bit two's complement `int`. -/
def toInt32 (x : Int) : Int := (x + 2147483648) % 4294967296 - 2147483648

/-- Conversion of a value to a 64-bit `unsigned long long`. -/
def toUInt64 (x : Int) : Int := x % 18446744073709551616

/-- One entry of the process table (`typedef struct { ... } PCB`). -/
structure PCB where
  occupied : Int
  pid : Int
  startSeconds : Int
  startNano : Int
  messagesSent : Int
deriving DecidableEq, Repr

/-- The shared clock: `shmClock[0]` is `sec`, `shmClock[1]` is `nano`. -/
structure Clock where
  sec : Int
  nano : Int
deriving DecidableEq, Repr

/-- Command-line configuration (globals set by `getopt` / `atoi`). -/
structure Config where
  totalProcs : Int
  simulLimit : Int
  childTimeLimit : Int
  launchIntervalMs : Int
deriving DecidableEq, Repr

/-- Local variables of `main` together with the globals the loop mutates. -/
structure State where
  shmClock : Clock
  processTable : List PCB
  launchedCount : Int
  runningCount : Int
  lastLaunchTime : Int
  roundRobinIndex : Nat
  totalMessagesSent : Int
deriving DecidableEq, Repr

/-- What the environment returns to the coordinator during one iteration. -/
structure Input where
  /-- Result of `waitpid(-1, &status, WNOHANG)`. -/
  pidTerm : Int
  /-- First `rand()` draw (for `randSec`). -/
  rand1 : Nat
  /-- Second `rand()` draw (for `randNano`). -/
  rand2 : Nat
  /-- Result of `fork()`. -/
  forkPid : Int
  /-- Whether `msgsnd` returned something other than `-1`. -/
  sndOk : Bool
  /-- Whether `msgrcv` returned something other than `-1`. -/
  rcvOk : Bool
  /-- The `mtext` field of the reply. -/
  reply : Int
deriving DecidableEq, Repr

/-- A zero-initialised table entry (the table is a global array). -/
def zeroPCB : PCB :=
  { occupied := 0, pid := 0, startSeconds := 0, startNano := 0, messagesSent := 0 }

/-- The entry `processTable[i]`. -/
def slot (t : List PCB) (i : Nat) : PCB := t.getD i zeroPCB

/-- Number of entries among the first `MAX_CHILDREN` whose `occupied` is non-zero. -/
def occCount (t : List PCB) : Nat :=
  ((List.range MAX_CHILDREN).filter (fun i => decide ((slot t i).occupied ≠ 0))).length

/-- State at the first evaluation of the loop condition: clock zeroed, every
slot free, all counters zero. -/
def initState : State :=
  { shmClock := { sec := 0, nano := 0 }
    processTable := List.replicate MAX_CHILDREN zeroPCB
    launchedCount := 0
    runningCount := 0
    lastLaunchTime := 0
    roundRobinIndex := 0
    totalMessagesSent := 0 }

/-- The function `incrementClock(runningCount)`; `none` is the division by zero. -/
def incrementClock (shmClock : Clock) (runningCount : Int) : Option Clock :=
  if runningCount = 0 then none
  else
    let nanoIncrement := Int.tdiv 250000000 runningCount
    let nano := shmClock.nano + nanoIncrement
    if toUInt64 nano ≥ ONE_BILLION then
      some { sec := toInt32 (toUInt64 (toUInt64 shmClock.sec + toUInt64 nano / ONE_BILLION))
             nano := toInt32 (toUInt64 nano % ONE_BILLION) }
    else
      some { sec := shmClock.sec, nano := nano }

/-- The value `((unsigned long long) shmClock[0]) * ONE_BILLION + shmClock[1]`. -/
def currentSimTime (c : Clock) : Int :=
  toUInt64 (toUInt64 (toUInt64 c.sec * ONE_BILLION) + toUInt64 c.nano)

/-- The loop `for (i = 0; i < MAX_CHILDREN; i++)` of the non-blocking reap:
`n` iterations are left and `i` is the loop index. -/
def reapLoop (pidTerm : Int) : Nat → Nat → List PCB × Int → List PCB × Int
  | 0, _, r => r
  | n + 1, i, (t, runningCount) =>
    if (slot t i).occupied ≠ 0 ∧ (slot t i).pid = pidTerm then
      (t.set i { slot t i with occupied := 0 }, runningCount - 1)
    else
      reapLoop pidTerm n (i + 1) (t, runningCount)

/-- The reap on a table and a running count: `if (pidTerm > 0) { for ... }`. -/
def reap (pidTerm : Int) (r : List PCB × Int) : List PCB × Int :=
  if pidTerm > 0 then reapLoop pidTerm MAX_CHILDREN 0 r else r

/-- Step 3 of the loop body: the non-blocking reap. -/
def reapPhase (pidTerm : Int) (s : State) : State :=
  { s with
    processTable := (reap pidTerm (s.processTable, s.runningCount)).1
    runningCount := (reap pidTerm (s.processTable, s.runningCount)).2 }

/-- The free-slot scan of the admission step; `none` stands for `slot == -1`. -/
def findFreeSlot (t : List PCB) : Nat → Nat → Option Nat
  | 0, _ => none
  | n + 1, i => if (slot t i).occupied = 0 then some i else findFreeSlot t n (i + 1)

/-- The lifetime handed to a new worker: `(rand() % childTimeLimit) + 1` and
`rand() % ONE_BILLION`; `none` is the remainder by zero. -/
def drawLifetime (childTimeLimit : Int) (r1 r2 : Nat) : Option (Int × Int) :=
  if childTimeLimit = 0 then none
  else some (Int.tmod (r1 : Int) childTimeLimit + 1, toInt32 (toUInt64 (r2 : Int) % ONE_BILLION))

/-- Step 4 of the loop body: the admission check and the launch. -/
def admitPhase (cfg : Config) (inp : Input) (simTime : Int) (s : State) : Option State :=
  if s.launchedCount < cfg.totalProcs ∧ s.runningCount < cfg.simulLimit ∧
      toUInt64 (simTime - s.lastLaunchTime) ≥ toUInt64 (toUInt64 cfg.launchIntervalMs * 1000000) then
    match findFreeSlot s.processTable MAX_CHILDREN 0 with
    | none => some s
    | some i =>
      match drawLifetime cfg.childTimeLimit inp.rand1 inp.rand2 with
      | none => none
      | some _ =>
        if inp.forkPid < 0 then none
        else if inp.forkPid = 0 then none
        else
          some { s with
            processTable := s.processTable.set i
              { occupied := 1, pid := inp.forkPid, startSeconds := s.shmClock.sec
                startNano := s.shmClock.nano, messagesSent := 0 }
            launchedCount := s.launchedCount + 1
            runningCount := s.runningCount + 1
            lastLaunchTime := simTime }
  else some s

/-- The `do { ... } while (roundRobinIndex != startIndex)` scan.  The first
argument bounds the number of iterations; the result is `(found,
roundRobinIndex)` and `none` means the bound was used up. -/
def rrScan (t : List PCB) (startIndex : Nat) : Nat → Nat → Option (Bool × Nat)
  | 0, _ => none
  | fuel + 1, roundRobinIndex =>
    if (slot t roundRobinIndex).occupied ≠ 0 then some (true, roundRobinIndex)
    else if (roundRobinIndex + 1) % MAX_CHILDREN ≠ startIndex then
      rrScan t startIndex fuel ((roundRobinIndex + 1) % MAX_CHILDREN)
    else some (false, (roundRobinIndex + 1) % MAX_CHILDREN)

/-- The table indices in circular order from `c`: `c, c+1, ..., 19, 0, ..., c-1`. -/
def circularOrder (c : Nat) : List Nat :=
  List.range' c (MAX_CHILDREN - c) ++ List.range c

/-- The scan as it is started by the dispatch step from cursor `c`. -/
def nextOccupiedFrom (t : List PCB) (c : Nat) : Option (Bool × Nat) :=
  rrScan t c MAX_CHILDREN c

/-- Step 5 of the loop body: round-robin dispatch of one wake message and the
handling of the reply. -/
def dispatchPhase (inp : Input) (s : State) : Option State :=
  if s.runningCount > 0 then
    match nextOccupiedFrom s.processTable s.roundRobinIndex with
    | none => none
    | some (false, rr) => some { s with roundRobinIndex := rr }
    | some (true, rr) =>
      if inp.sndOk = false then none
      else if inp.rcvOk = false then none
      else
        let sent := s.processTable.set rr
          { slot s.processTable rr with messagesSent := (slot s.processTable rr).messagesSent + 1 }
        if inp.reply = 0 then
          some { s with
            processTable := sent.set rr { slot sent rr with occupied := 0 }
            runningCount := s.runningCount - 1
            roundRobinIndex := (rr + 1) % MAX_CHILDREN
            totalMessagesSent := s.totalMessagesSent + 1 }
        else
          some { s with
            processTable := sent
            roundRobinIndex := (rr + 1) % MAX_CHILDREN
            totalMessagesSent := s.totalMessagesSent + 1 }
  else some s

/-- Consecutive dispatch steps, one per input, with the table untouched in
between (no reap and no launch between them). -/
def dispatchRun : List Input → State → Option State
  | [], s => some s
  | inp :: rest, s =>
    match dispatchPhase inp s with
    | none => none
    | some s1 => dispatchRun rest s1

/-- Step 1 of the loop body: `incrementClock(runningCount == 0 ? 1 : runningCount)`. -/
def clockPhase (s : State) : Option State :=
  match incrementClock s.shmClock (if s.runningCount = 0 then 1 else s.runningCount) with
  | none => none
  | some c => some { s with shmClock := c }

/-- The condition of the main `while` loop. -/
abbrev loopCond (cfg : Config) (s : State) : Prop :=
  s.launchedCount < cfg.totalProcs ∨ s.runningCount > 0

/-- One iteration of the main loop. -/
def mainLoopBody (cfg : Config) (inp : Input) (s : State) : Option State :=
  match clockPhase s with
  | none => none
  | some s1 =>
    match admitPhase cfg inp (currentSimTime s1.shmClock) (reapPhase inp.pidTerm s1) with
    | none => none
    | some s3 => dispatchPhase inp s3

/-- States in which the loop condition is evaluated: the initial state and the
state after every completed iteration. -/
inductive Reachable (cfg : Config) : State → Prop
  | init : Reachable cfg initState
  | iter {s s' : State} (inp : Input) :
      Reachable cfg s → loopCond cfg s → mainLoopBody cfg inp s = some s' → Reachable cfg s'

/-- Structural well-formedness of a loop state: the table has its 20 entries,
`runningCount` counts the occupied ones and the cursor is a table index. -/
def WF (s : State) : Prop :=
  s.processTable.length = MAX_CHILDREN ∧ s.runningCount = (occCount s.processTable : Int) ∧
    s.roundRobinIndex < MAX_CHILDREN

/-- The invariant carried through the loop: well-formedness and the two
counters below their configured limits. -/
def Inv (cfg : Config) (s : State) : Prop :=
  WF s ∧ (0 ≤ cfg.simulLimit → s.runningCount ≤ cfg.simulLimit) ∧
    (0 ≤ cfg.totalProcs → s.launchedCount ≤ cfg.totalProcs)

/-- Every program point of the loop between two steps: the loop head, and the
states after the clock advance, after the reap and after the admission step of
an iteration that was entered. -/
inductive Visited (cfg : Config) : State → Prop
  | head {s : State} : Reachable cfg s → Visited cfg s
  | afterClock {s s1 : State} :
      Reachable cfg s → loopCond cfg s → clockPhase s = some s1 → Visited cfg s1
  | afterReap {s s1 : State} (pidTerm : Int) :
      Reachable cfg s → loopCond cfg s → clockPhase s = some s1 →
      Visited cfg (reapPhase pidTerm s1)
  | afterAdmit {s s1 s3 : State} (inp : Input) :
      Reachable cfg s → loopCond cfg s → clockPhase s = some s1 →
      admitPhase cfg inp (currentSimTime s1.shmClock) (reapPhase inp.pidTerm s1) = some s3 →
      Visited cfg s3

/-- A configuration used for concrete runs: one worker, the other options at
their defaults. -/
def demoCfg : Config :=
  { totalProcs := 1, simulLimit := 5, childTimeLimit := 5, launchIntervalMs := 100 }

/-- Inputs of an iteration in which nothing is reaped, `fork` returns 4242 and
the addressed worker replies continue. -/
def inpContinue : Input :=
  { pidTerm := 0, rand1 := 7, rand2 := 123456789, forkPid := 4242
    sndOk := true, rcvOk := true, reply := 1 }

/-- Inputs of an iteration in which nothing is reaped and the addressed worker
replies terminate. -/
def inpTerminate : Input :=
  { pidTerm := 0, rand1 := 7, rand2 := 123456789, forkPid := 4243
    sndOk := true, rcvOk := true, reply := 0 }

/-- State of `demoCfg` after the first iteration on `inpContinue`: one worker
launched into slot 0 and woken once. -/
def demoState1 : State :=
  { shmClock := { sec := 0, nano := 250000000 }
    processTable :=
      { occupied := 1, pid := 4242, startSeconds := 0, startNano := 250000000
        messagesSent := 1 } :: List.replicate 19 zeroPCB
    launchedCount := 1
    runningCount := 1
    lastLaunchTime := 250000000
    roundRobinIndex := 1
    totalMessagesSent := 1 }

/-- State of `demoCfg` after a second iteration on `inpTerminate`: the worker
has replied terminate and its slot is free again. -/
def demoState2 : State :=
  { shmClock := { sec := 0, nano := 500000000 }
    processTable :=
      { occupied := 0, pid := 4242, startSeconds := 0, startNano := 250000000
        messagesSent := 2 } :: List.replicate 19 zeroPCB
    launchedCount := 1
    runningCount := 0
    lastLaunchTime := 250000000
    roundRobinIndex := 1
    totalMessagesSent := 2 }

/-- A state with two workers, in slots 0 and 3, and the cursor at 2. -/
def fairState : State :=
  { shmClock := { sec := 1, nano := 0 }
    processTable :=
      [ { occupied := 1, pid := 10, startSeconds := 0, startNano := 250000000, messagesSent := 4 },
        zeroPCB, zeroPCB,
        { occupied := 1, pid := 11, startSeconds := 0, startNano := 500000000, messagesSent := 3 } ]
      ++ List.replicate 16 zeroPCB
    launchedCount := 2
    runningCount := 2
    lastLaunchTime := 500000000
    roundRobinIndex := 2
    totalMessagesSent := 7 }

/-- A state whose 20 slots are all occupied (pids 100 to 119), with admission
otherwise eligible under `fullCfg`. -/
def fullState : State :=
  { shmClock := { sec := 9, nano := 0 }
    processTable := (List.range MAX_CHILDREN).map (fun i =>
      { occupied := 1, pid := 100 + (i : Int), startSeconds := 0, startNano := 0
        messagesSent := 0 })
    launchedCount := 20
    runningCount := 20
    lastLaunchTime := 5000000000
    roundRobinIndex := 0
    totalMessagesSent := 0 }

/-- A configuration whose concurrency limit exceeds the table capacity. -/
def fullCfg : Config :=
  { totalProcs := 30, simulLimit := 25, childTimeLimit := 5, launchIntervalMs := 100 }

/-- The clock is normalized and its seconds are a 32-bit `int`. -/
def ClockOK (c : Clock) : Prop :=
  0 ≤ c.nano ∧ c.nano < ONE_BILLION ∧ -2147483648 ≤ c.sec ∧ c.sec ≤ 2147483647

/-- A configuration that never admits a worker (`-s 0 -n 1`): the loop idles. -/
def cfgIdle : Config :=
  { totalProcs := 1, simulLimit := 0, childTimeLimit := 5, launchIntervalMs := 100 }

/-- Inputs of an idle iteration: `waitpid` finds no child (`-1`). -/
def inpIdle : Input :=
  { pidTerm := -1, rand1 := 0, rand2 := 0, forkPid := -1
    sndOk := true, rcvOk := true, reply := 1 }

/-- The initial state with the clock moved to `(sec, nano)`. -/
def idleState (sec nano : Int) : State :=
  { initState with shmClock := { sec := sec, nano := nano } }

/-- A run of the main loop on a list of inputs, one per iteration, from a
state in which the loop condition is evaluated; `none` when an iteration
leaves the loop or an input is supplied although the loop condition is
false. -/
def runLoop (cfg : Config) : List Input → State → Option State
  | [], s => some s
  | inp :: rest, s =>
    if loopCond cfg s then
      match mainLoopBody cfg inp s with
      | none => none
      | some s' => runLoop cfg rest s'
    else none

/-- The values of `currentSimTime` in the iterations of a run that launched a
worker, in order.  The run ends with the inputs, when the loop condition is
false, or when an iteration leaves the loop (a launch made before the exit
in that iteration is still listed). -/
def launchTimes (cfg : Config) : List Input → State → List Int
  | [], _ => []
  | inp :: rest, s =>
    if loopCond cfg s then
      match clockPhase s with
      | none => []
      | some s1 =>
        match admitPhase cfg inp (currentSimTime s1.shmClock) (reapPhase inp.pidTerm s1) with
        | none => []
        | some s3 =>
          (if s3.launchedCount = s.launchedCount then [] else [currentSimTime s1.shmClock]) ++
            (match dispatchPhase inp s3 with
              | none => []
              | some s4 => launchTimes cfg rest s4)
    else []

/-- Every entry of the table has `occupied` equal to 0 or to 1. -/
def BinaryOcc (t : List PCB) : Prop :=
  ∀ i, (slot t i).occupied = 0 ∨ (slot t i).occupied = 1

/-- Number of entries among the first `MAX_CHILDREN` with `occupied == 1`. -/
def occOneCount (t : List PCB) : Nat :=
  ((List.range MAX_CHILDREN).filter (fun i => decide ((slot t i).occupied = 1))).length

/-- The message handed to `msgsnd` by the dispatch step entered in state `s`,
as `(mtype, mtext)`; `none` when the step sends nothing. -/
def wakeMessage (s : State) : Option (Int × Int) :=
  if s.runningCount > 0 then
    match nextOccupiedFrom s.processTable s.roundRobinIndex with
    | some (true, rr) => some ((slot s.processTable rr).pid, 1)
    | _ => none
  else none

/-- The sequential scenario of the specification:
`totalProcs=3, simulLimit=1, childTimeLimit=1, launchIntervalMs=0`. -/
def seqCfg : Config :=
  { totalProcs := 3, simulLimit := 1, childTimeLimit := 1, launchIntervalMs := 0 }

/-- Inputs of the six iterations a worker of `seqCfg` lives through when its
lifetime is one second: five continue replies, then terminate. -/
def seqWorkerInputs (pid : Int) : List Input :=
  List.replicate 5
    { pidTerm := 0, rand1 := 7, rand2 := 0, forkPid := pid
      sndOk := true, rcvOk := true, reply := 1 } ++
  [{ pidTerm := 0, rand1 := 7, rand2 := 0, forkPid := pid
     sndOk := true, rcvOk := true, reply := 0 }]

/-- Inputs of a complete run of `seqCfg`: three workers, one after the other. -/
def seqInputs : List Input :=
  seqWorkerInputs 501 ++ seqWorkerInputs 502 ++ seqWorkerInputs 503

/-- State of `seqCfg` after the run on `seqInputs`: three workers launched,
none running. -/
def seqFinal : State :=
  { shmClock := { sec := 4, nano := 500000000 }
    processTable :=
      { occupied := 0, pid := 503, startSeconds := 3, startNano := 250000000
        messagesSent := 6 } :: List.replicate 19 zeroPCB
    launchedCount := 3
    runningCount := 0
    lastLaunchTime := 3250000000
    roundRobinIndex := 1
    totalMessagesSent := 18 }

/-- States in which the loop condition is evaluated, together with the number
of iterations completed before them. -/
inductive ReachableIn (cfg : Config) : Nat → State → Prop
  | init : ReachableIn cfg 0 initState
  | iter {n : Nat} {s s' : State} (inp : Input) :
      ReachableIn cfg n s → loopCond cfg s → mainLoopBody cfg inp s = some s' →
      ReachableIn cfg (n + 1) s'

/-- The clock is normalized, its seconds are not negative, and it reads no
more than `n` advances of 250,000,000 ns (the largest advance of one
iteration) add up to. -/
def ClockWithin (n : Nat) (c : Clock) : Prop :=
  0 ≤ c.sec ∧ 0 ≤ c.nano ∧ c.nano < ONE_BILLION ∧
    c.sec * 1000000000 + c.nano ≤ (n : Int) * 250000000

/-- The recorded time of the last launch is not negative and not later than
the clock. -/
def LastLaunchOK (s : State) : Prop :=
  0 ≤ s.lastLaunchTime ∧
    s.lastLaunchTime ≤ s.shmClock.sec * 1000000000 + s.shmClock.nano

/-- A configuration with a launch interval of 300 simulated milliseconds. -/
def intervalCfg : Config :=
  { totalProcs := 3, simulLimit := 5, childTimeLimit := 5, launchIntervalMs := 300 }

/-- The numbers written by the summary line: launched and messages sent. -/
def summary (s : State) : Int × Int := (s.launchedCount, s.totalMessagesSent)

end Oss

namespace Worker

open Oss

/-- The worker's termination time from the clock read at start-up and the two
command-line arguments (`worker.c`, lines 59-64). -/
def termTime (clockSec clockNano targetSeconds targetNano : Int) : Int × Int :=
  let termSeconds := clockSec + targetSeconds
  let termNano := clockNano + targetNano
  if toUInt64 termNano ≥ ONE_BILLION then
    (toInt32 (toUInt64 (toUInt64 termSeconds + toUInt64 termNano / ONE_BILLION)),
     toInt32 (toUInt64 termNano % ONE_BILLION))
  else (termSeconds, termNano)

/-- The `mtext` the worker sends back on a wake, from the clock it reads. -/
def reply (clockSec clockNano termSeconds termNano : Int) : Int :=
  if clockSec > termSeconds ∨ (clockSec = termSeconds ∧ clockNano > termNano) then 0 else 1

/-- One wake of the worker: whether `msgrcv` succeeded, the clock read after
it, and whether the `msgsnd` of the reply succeeded. -/
structure Wake where
  rcvOk : Bool
  sec : Int
  nano : Int
  sndOk : Bool
deriving DecidableEq, Repr

/-- Whether the clock read on a wake is past the termination time (the
condition of `worker.c`, line 84). -/
def exceeds (termSeconds termNano : Int) (w : Wake) : Bool :=
  decide (w.sec > termSeconds ∨ (w.sec = termSeconds ∧ w.nano > termNano))

/-- The loop `while (!done)` of the worker on a sequence of wakes: the list
of `mtext` values it sends, in order.  A failed `msgrcv` or `msgsnd` is
`exit(1)`; after a terminate reply the loop ends. -/
def run (termSeconds termNano : Int) : List Wake → List Int
  | [] => []
  | w :: rest =>
    if w.rcvOk = false then []
    else if w.sndOk = false then []
    else if reply w.sec w.nano termSeconds termNano = 0 then [0]
    else reply w.sec w.nano termSeconds termNano :: run termSeconds termNano rest

/-- Four wakes of a worker whose termination time is `(1, 250000000)`, at the
clock readings `(1, 0)`, `(1, 250000000)`, `(1, 500000000)`, `(1, 750000000)`. -/
def demoWakes : List Wake :=
  [{ rcvOk := true, sec := 1, nano := 0, sndOk := true },
   { rcvOk := true, sec := 1, nano := 250000000, sndOk := true },
   { rcvOk := true, sec := 1, nano := 500000000, sndOk := true },
   { rcvOk := true, sec := 1, nano := 750000000, sndOk := true }]

end Worker

namespace Oss

/-! ## Conversions, table access and occupancy count -/

theorem toInt32_of_range {x : Int} (h1 : -2147483648 ≤ x) (h2 : x < 2147483648) : toInt32 x = x := by
  unfold toInt32; omega

theorem toUInt64_of_range {x : Int} (h1 : 0 ≤ x) (h2 : x < 18446744073709551616) : toUInt64 x = x := by
  unfold toUInt64; omega

theorem slot_set (t : List PCB) (i j : Nat) (a : PCB) :
    slot (t.set i a) j = if i = j ∧ i < t.length then a else slot t j := by
  unfold slot
  simp only [List.getD_eq_getElem?_getD, List.getElem?_set]
  by_cases h : i = j
  · subst h
    by_cases h2 : i < t.length
    · simp [h2]
    · simp [h2, List.getElem?_eq_none (Nat.le_of_not_lt h2)]
  · simp [h]

theorem filter_length_flip (p q : Nat → Bool) (i : Nat) (hp : p i = true) (hq : q i = false)
    (hne : ∀ j, j ≠ i → p j = q j) :
    ∀ n, ((List.range n).filter p).length
        = ((List.range n).filter q).length + (if i < n then 1 else 0) := by
  intro n
  induction n with
  | zero => simp
  | succ n ih =>
    rw [List.range_succ, List.filter_append, List.filter_append, List.length_append,
      List.length_append, ih]
    by_cases h : n = i
    · subst h; simp [hp, hq]
    · have h0 := hne n h
      have h1 : (i < n + 1) ↔ (i < n) := by omega
      have h2 : List.filter p [n] = List.filter q [n] := by
        simp [List.filter_cons, h0]
      rw [h2]
      simp only [h1]
      omega

theorem occCount_le (t : List PCB) : occCount t ≤ MAX_CHILDREN := by
  unfold occCount
  calc _ ≤ (List.range MAX_CHILDREN).length := List.length_filter_le _ _
    _ = MAX_CHILDREN := List.length_range _

theorem occCount_set_same (t : List PCB) (i : Nat) (a : PCB)
    (h : (a.occupied ≠ 0) ↔ ((slot t i).occupied ≠ 0)) : occCount (t.set i a) = occCount t := by
  unfold occCount
  congr 1
  apply List.filter_congr
  intro j _
  rw [slot_set]
  by_cases hj : i = j ∧ i < t.length
  · obtain ⟨rfl, hl⟩ := hj
    simp only [hl, and_self, if_true]
    exact decide_eq_decide.mpr h
  · simp [hj]

theorem occCount_set_free (t : List PCB) (i : Nat) (a : PCB) (hi : i < MAX_CHILDREN)
    (hl : i < t.length) (ha : a.occupied = 0) (ht : (slot t i).occupied ≠ 0) :
    occCount t = occCount (t.set i a) + 1 := by
  unfold occCount
  have := filter_length_flip (fun j => decide ((slot t j).occupied ≠ 0))
    (fun j => decide ((slot (t.set i a) j).occupied ≠ 0)) i (by simpa using ht)
    (by simp [slot_set, hl, ha])
    (by intro j hj; simp [slot_set, Ne.symm hj]) MAX_CHILDREN
  simpa [hi] using this

theorem occCount_set_occupy (t : List PCB) (i : Nat) (a : PCB) (hi : i < MAX_CHILDREN)
    (hl : i < t.length) (ha : a.occupied ≠ 0) (ht : (slot t i).occupied = 0) :
    occCount (t.set i a) = occCount t + 1 := by
  unfold occCount
  have := filter_length_flip (fun j => decide ((slot (t.set i a) j).occupied ≠ 0))
    (fun j => decide ((slot t j).occupied ≠ 0)) i
    (by simp [slot_set, hl, ha]) (by simpa using ht)
    (by intro j hj; simp [slot_set, Ne.symm hj]) MAX_CHILDREN
  simpa [hi] using this

/-! ## The three scans of the loop body -/

theorem reapLoop_spec (p : Int) : ∀ (n i : Nat) (t : List PCB) (rc : Int),
    i + n ≤ MAX_CHILDREN → t.length = MAX_CHILDREN →
    (reapLoop p n i (t, rc)).1.length = MAX_CHILDREN ∧
    (reapLoop p n i (t, rc) = (t, rc) ∨
      ((reapLoop p n i (t, rc)).2 = rc - 1 ∧
        occCount t = occCount (reapLoop p n i (t, rc)).1 + 1)) := by
  intro n
  induction n with
  | zero => intro i t rc _ hl; simp [reapLoop, hl]
  | succ n ih =>
    intro i t rc hi hl
    unfold reapLoop
    split
    · rename_i hm
      refine ⟨by simp [hl], Or.inr ⟨rfl, ?_⟩⟩
      exact occCount_set_free t i { slot t i with occupied := 0 } (by omega) (by omega) rfl hm.1
    · exact ih (i + 1) t rc (by omega) hl

theorem reap_spec (p : Int) (t : List PCB) (rc : Int) (hl : t.length = MAX_CHILDREN) :
    (reap p (t, rc)).1.length = MAX_CHILDREN ∧
    (reap p (t, rc) = (t, rc) ∨
      ((reap p (t, rc)).2 = rc - 1 ∧ occCount t = occCount (reap p (t, rc)).1 + 1)) := by
  unfold reap
  split
  · exact reapLoop_spec p MAX_CHILDREN 0 t rc (by simp) hl
  · exact ⟨hl, Or.inl rfl⟩

theorem findFreeSlot_some (t : List PCB) : ∀ (n i j : Nat), findFreeSlot t n i = some j →
    i ≤ j ∧ j < i + n ∧ (slot t j).occupied = 0 ∧ ∀ k, i ≤ k → k < j → (slot t k).occupied ≠ 0 := by
  intro n
  induction n with
  | zero => intro i j h; simp [findFreeSlot] at h
  | succ n ih =>
    intro i j h
    unfold findFreeSlot at h
    split at h
    · rename_i h0
      injection h with h; subst h
      exact ⟨le_refl _, by omega, h0, fun k h1 h2 => by omega⟩
    · rename_i h0
      obtain ⟨h1, h2, h3, h4⟩ := ih (i + 1) j h
      refine ⟨by omega, by omega, h3, fun k hk1 hk2 => ?_⟩
      by_cases hk : k = i
      · subst hk; exact h0
      · exact h4 k (by omega) hk2

theorem findFreeSlot_none (t : List PCB) : ∀ (n i : Nat), findFreeSlot t n i = none ↔
    ∀ k, i ≤ k → k < i + n → (slot t k).occupied ≠ 0 := by
  intro n
  induction n with
  | zero => intro i; simp [findFreeSlot]; intro k h1 h2; omega
  | succ n ih =>
    intro i
    unfold findFreeSlot
    split
    · rename_i h0
      simp only [false_iff, reduceCtorEq]
      intro h
      exact h i (le_refl _) (by omega) h0
    · rename_i h0
      rw [ih]
      constructor
      · intro h k hk1 hk2
        by_cases hk : k = i
        · subst hk; exact h0
        · exact h k (by omega) (by omega)
      · intro h k hk1 hk2
        exact h k (by omega) (by omega)

/-- The scan started at offset `i` of the circular order examines the slots
`(c + i) % 20, ..., (c + 19) % 20` in that order. -/
theorem rrScan_offset (t : List PCB) (c : Nat) (hc : c < MAX_CHILDREN) :
    ∀ (f i : Nat), i + f = MAX_CHILDREN → 1 ≤ f →
    rrScan t c f ((c + i) % MAX_CHILDREN) =
      match ((List.range' i f).map (fun k => (c + k) % MAX_CHILDREN)).find?
          (fun j => decide ((slot t j).occupied ≠ 0)) with
      | some j => some (true, j)
      | none => some (false, c) := by
  intro f
  induction f with
  | zero => intro i _ h; omega
  | succ f ih =>
    intro i hi _
    rw [List.range'_succ, List.map_cons, List.find?_cons]
    unfold rrScan
    by_cases h0 : (slot t ((c + i) % MAX_CHILDREN)).occupied ≠ 0
    · simp [h0]
    · have h1 : ((c + i) % MAX_CHILDREN + 1) % MAX_CHILDREN = (c + (i + 1)) % MAX_CHILDREN := by
        simp only [MAX_CHILDREN] at *; omega
      simp only [h0, if_false, decide_False, h1]
      by_cases hf : f = 0
      · subst hf
        have h2 : (c + (i + 1)) % MAX_CHILDREN = c := by
          simp only [MAX_CHILDREN] at *; omega
        simp [h2]
      · have h2 : (c + (i + 1)) % MAX_CHILDREN ≠ c := by
          simp only [MAX_CHILDREN] at *; omega
        simp only [h2, ne_eq, not_false_eq_true, if_true]
        exact ih (i + 1) (by omega) (by omega)

/-- The circular order `c, c+1, ..., 19, 0, ..., c-1`, by offsets. -/
theorem circular_order (c : Nat) (hc : c < MAX_CHILDREN) :
    (List.range' 0 MAX_CHILDREN).map (fun k => (c + k) % MAX_CHILDREN)
      = circularOrder c := by
  unfold circularOrder
  simp only [MAX_CHILDREN] at *
  interval_cases c <;> decide

theorem nextOccupiedFrom_eq (t : List PCB) (c : Nat) (hc : c < MAX_CHILDREN) :
    nextOccupiedFrom t c =
      match (circularOrder c).find? (fun j => decide ((slot t j).occupied ≠ 0)) with
      | some j => some (true, j)
      | none => some (false, c) := by
  have := rrScan_offset t c hc MAX_CHILDREN 0 (by simp) (by simp)
  rw [circular_order c hc, Nat.add_zero, Nat.mod_eq_of_lt hc] at this
  exact this

/-! ## The loop invariant -/

theorem initState_inv (cfg : Config) : Inv cfg initState := by
  refine ⟨⟨by decide, by decide, by decide⟩, fun h => h, fun h => h⟩

theorem clockPhase_frame {s s1 : State} (h : clockPhase s = some s1) :
    s1.processTable = s.processTable ∧ s1.runningCount = s.runningCount ∧
    s1.launchedCount = s.launchedCount ∧ s1.roundRobinIndex = s.roundRobinIndex ∧
    s1.lastLaunchTime = s.lastLaunchTime ∧ s1.totalMessagesSent = s.totalMessagesSent := by
  unfold clockPhase at h
  split at h
  · simp at h
  · injection h with h; subst h; simp

theorem clockPhase_inv {cfg : Config} {s s1 : State} (hi : Inv cfg s)
    (h : clockPhase s = some s1) : Inv cfg s1 := by
  obtain ⟨h1, h2, h3, h4, _, _⟩ := clockPhase_frame h
  unfold Inv WF at *
  rw [h1, h2, h3, h4]
  exact hi

theorem reapPhase_inv {cfg : Config} (p : Int) {s : State} (hi : Inv cfg s) :
    Inv cfg (reapPhase p s) := by
  obtain ⟨⟨hl, hc, hr⟩, hs, ht⟩ := hi
  obtain ⟨h1, h2⟩ := reap_spec p s.processTable s.runningCount hl
  unfold Inv WF reapPhase
  simp only
  rcases h2 with h2 | ⟨h2, h3⟩
  · rw [h2]; exact ⟨⟨hl, hc, hr⟩, hs, ht⟩
  · refine ⟨⟨h1, ?_, hr⟩, ?_, ht⟩
    · omega
    · intro h; have := hs h; omega

theorem admitPhase_inv {cfg : Config} {inp : Input} {T : Int} {s s3 : State} (hi : Inv cfg s)
    (h : admitPhase cfg inp T s = some s3) : Inv cfg s3 := by
  obtain ⟨⟨hl, hc, hr⟩, hs, ht⟩ := hi
  unfold admitPhase at h
  split at h
  · rename_i hadm
    split at h
    · injection h with h; subst h; exact ⟨⟨hl, hc, hr⟩, hs, ht⟩
    · rename_i i hfree
      split at h
      · simp at h
      · split at h
        · simp at h
        · split at h
          · simp at h
          · injection h with h; subst h
            obtain ⟨_, hi2, hi3, _⟩ := findFreeSlot_some _ _ _ _ hfree
            have hcount := occCount_set_occupy s.processTable i
              { occupied := 1, pid := inp.forkPid, startSeconds := s.shmClock.sec
                startNano := s.shmClock.nano, messagesSent := 0 }
              (by omega) (by omega) (by simp) hi3
            refine ⟨⟨by simp [hl], ?_, hr⟩, ?_, ?_⟩
            · simp only [hcount, hc]; push_cast; rfl
            · intro _; simp only; omega
            · intro _; simp only; omega
  · injection h with h; subst h; exact ⟨⟨hl, hc, hr⟩, hs, ht⟩

/-- What the scan returns from a valid cursor: an occupied table index, or
not-found with the cursor back at its start. -/
theorem nextOccupiedFrom_cases (t : List PCB) (c : Nat) (hc : c < MAX_CHILDREN) :
    (∃ j, nextOccupiedFrom t c = some (true, j) ∧ j < MAX_CHILDREN ∧ (slot t j).occupied ≠ 0) ∨
    (nextOccupiedFrom t c = some (false, c) ∧ ∀ j, j < MAX_CHILDREN → (slot t j).occupied = 0) := by
  rw [nextOccupiedFrom_eq t c hc]
  cases hf : (circularOrder c).find? (fun j => decide ((slot t j).occupied ≠ 0)) with
  | some j =>
    left
    refine ⟨j, rfl, ?_, ?_⟩
    · have := List.mem_of_find?_eq_some hf
      simp only [circularOrder, List.mem_append, List.mem_range'_1, List.mem_range] at this
      omega
    · simpa using List.find?_some hf
  | none =>
    right
    refine ⟨rfl, fun j hj => ?_⟩
    rw [List.find?_eq_none] at hf
    have := hf j (by
      simp only [circularOrder, List.mem_append, List.mem_range'_1, List.mem_range]
      omega)
    simpa using this

theorem dispatchPhase_inv {cfg : Config} {inp : Input} {s s4 : State} (hi : Inv cfg s)
    (h : dispatchPhase inp s = some s4) : Inv cfg s4 := by
  obtain ⟨⟨hl, hc, hr⟩, hs, ht⟩ := hi
  unfold dispatchPhase at h
  split at h
  · rcases nextOccupiedFrom_cases s.processTable s.roundRobinIndex hr with
      ⟨j, hj, hj20, hocc⟩ | ⟨hnf, _⟩
    · rw [hj] at h
      simp only at h
      split at h
      · simp at h
      · split at h
        · simp at h
        · have hsent := occCount_set_same s.processTable j
            { slot s.processTable j with
              messagesSent := (slot s.processTable j).messagesSent + 1 } (by simp)
          have hmod : (j + 1) % MAX_CHILDREN < MAX_CHILDREN := Nat.mod_lt _ (by decide)
          split at h
          · injection h with h; subst h
            have hfree := occCount_set_free
              (s.processTable.set j { slot s.processTable j with
                messagesSent := (slot s.processTable j).messagesSent + 1 }) j
              { slot (s.processTable.set j { slot s.processTable j with
                  messagesSent := (slot s.processTable j).messagesSent + 1 }) j with
                occupied := 0 } hj20 (by simp; omega) rfl
              (by rw [slot_set]; simp [hocc, show j < s.processTable.length by omega])
            refine ⟨⟨by simp [hl], ?_, hmod⟩, ?_, ht⟩
            · simp only
              rw [hsent] at hfree
              rw [hc, hfree]; push_cast; omega
            · intro h0; have := hs h0; simp only; omega
          · injection h with h; subst h
            refine ⟨⟨by simp [hl], ?_, hmod⟩, hs, ht⟩
            simp only [hsent, hc]
    · rw [hnf] at h
      simp only at h
      injection h with h; subst h
      exact ⟨⟨hl, hc, hr⟩, hs, ht⟩
  · injection h with h; subst h; exact ⟨⟨hl, hc, hr⟩, hs, ht⟩

theorem mainLoopBody_inv {cfg : Config} {inp : Input} {s s' : State} (hi : Inv cfg s)
    (h : mainLoopBody cfg inp s = some s') : Inv cfg s' := by
  unfold mainLoopBody at h
  split at h
  · simp at h
  · rename_i s1 h1
    split at h
    · simp at h
    · rename_i s3 h3
      exact dispatchPhase_inv (admitPhase_inv (reapPhase_inv _ (clockPhase_inv hi h1)) h3) h

theorem reachable_inv {cfg : Config} {s : State} (h : Reachable cfg s) : Inv cfg s := by
  induction h with
  | init => exact initState_inv cfg
  | iter inp _ _ hb ih => exact mainLoopBody_inv ih hb

theorem visited_inv {cfg : Config} {s : State} (h : Visited cfg s) : Inv cfg s := by
  cases h with
  | head hr => exact reachable_inv hr
  | afterClock hr _ h1 => exact clockPhase_inv (reachable_inv hr) h1
  | afterReap p hr _ h1 => exact reapPhase_inv p (clockPhase_inv (reachable_inv hr) h1)
  | afterAdmit inp hr _ h1 h3 =>
    exact admitPhase_inv (reapPhase_inv _ (clockPhase_inv (reachable_inv hr) h1)) h3

/-! ## Limits on the running count and the state at loop exit -/

theorem demoState1_reachable : Reachable demoCfg demoState1 :=
  Reachable.iter inpContinue Reachable.init (by decide) (by decide)

theorem demoState2_reachable : Reachable demoCfg demoState2 :=
  Reachable.iter inpTerminate demoState1_reachable (by decide) (by decide)

/-- C1: with `simulLimit >= 0`, at every program point of the main loop (the
loop head and the points after the clock advance, the reap and the admission
step), whatever the reaped pids, fork results and replies were,
`runningCount <= simulLimit` and `runningCount <= MAX_CHILDREN`. -/
theorem running_le_limits (cfg : Config) (hlim : 0 ≤ cfg.simulLimit) (s : State)
    (hs : Visited cfg s) :
    s.runningCount ≤ cfg.simulLimit ∧ s.runningCount ≤ (MAX_CHILDREN : Int) := by
  obtain ⟨⟨_, hc, _⟩, hsim, _⟩ := visited_inv hs
  refine ⟨hsim hlim, ?_⟩
  rw [hc]
  exact_mod_cast occCount_le s.processTable

/-- A concrete instance: the state after the first iteration of `demoCfg`, in
which one worker has been launched. -/
theorem running_le_limits_witness :
    (0 : Int) ≤ demoCfg.simulLimit ∧ Visited demoCfg demoState1 ∧
      demoState1.runningCount ≤ demoCfg.simulLimit ∧
      demoState1.runningCount ≤ (MAX_CHILDREN : Int) :=
  ⟨by decide, Visited.head demoState1_reachable,
    running_le_limits demoCfg (by decide) demoState1 (Visited.head demoState1_reachable)⟩

/-- C2: with `totalProcs >= 0`, a loop-head state in which the loop condition
`launchedCount < totalProcs || runningCount > 0` is false has
`launchedCount = totalProcs` and `runningCount = 0`, so the summary line
reports `totalProcs` launched. -/
theorem exit_launched_eq_total (cfg : Config) (htot : 0 ≤ cfg.totalProcs) (s : State)
    (hs : Reachable cfg s) (hexit : ¬ loopCond cfg s) :
    s.launchedCount = cfg.totalProcs ∧ s.runningCount = 0 ∧
      (summary s).1 = cfg.totalProcs := by
  obtain ⟨⟨_, hc, _⟩, _, hlaunch⟩ := reachable_inv hs
  have h1 := hlaunch htot
  unfold loopCond at hexit
  unfold summary
  simp only
  omega

/-- A concrete instance: the run of `demoCfg` that launches one worker, wakes it
twice and leaves the loop after its terminate reply. -/
theorem exit_launched_eq_total_witness :
    (0 : Int) ≤ demoCfg.totalProcs ∧ Reachable demoCfg demoState2 ∧
      ¬ loopCond demoCfg demoState2 ∧
      (demoState2.launchedCount = demoCfg.totalProcs ∧ demoState2.runningCount = 0 ∧
        (summary demoState2).1 = demoCfg.totalProcs) :=
  ⟨by decide, demoState2_reachable, by decide,
    exit_launched_eq_total demoCfg (by decide) demoState2 demoState2_reachable (by decide)⟩

/-! ## Round-robin order -/

theorem circularOrder_eq_rotate (c : Nat) (hc : c < MAX_CHILDREN) :
    circularOrder c = (List.range MAX_CHILDREN).rotate c := by
  unfold circularOrder
  simp only [MAX_CHILDREN] at *
  interval_cases c <;> decide

theorem mem_circularOrder (c : Nat) (hc : c < MAX_CHILDREN) (i : Nat) :
    i ∈ circularOrder c ↔ i < MAX_CHILDREN := by
  simp only [circularOrder, List.mem_append, List.mem_range'_1, List.mem_range]
  omega

theorem nodup_circularOrder (c : Nat) (hc : c < MAX_CHILDREN) : (circularOrder c).Nodup := by
  rw [circularOrder_eq_rotate c hc, List.nodup_rotate]
  exact List.nodup_range _

/-- Servicing the first occupied slot `j` of the circular order from `c` and
moving the cursor to `(j + 1) % 20` rotates the occupied slots by one. -/
theorem circularOrder_filter_next (p : Nat → Bool) (c : Nat) (hc : c < MAX_CHILDREN)
    (j : Nat) (rest : List Nat) (h : (circularOrder c).filter p = j :: rest) :
    j < MAX_CHILDREN ∧ (circularOrder ((j + 1) % MAX_CHILDREN)).filter p = rest ++ [j] := by
  have hjm : j ∈ (circularOrder c).filter p := by rw [h]; exact List.mem_cons_self _ _
  have hj20 : j < MAX_CHILDREN := (mem_circularOrder c hc j).mp (List.mem_filter.mp hjm).1
  refine ⟨hj20, ?_⟩
  rw [circularOrder_eq_rotate c hc] at h
  obtain ⟨pre, post, hR, hpre, hpj, hpost⟩ := List.filter_eq_cons_iff.mp h
  have hlen : pre.length + 1 + post.length = MAX_CHILDREN := by
    have := congrArg List.length hR
    simp only [List.length_rotate, List.length_range, List.length_append,
      List.length_cons] at this
    omega
  have hidx : ((List.range MAX_CHILDREN).rotate c)[pre.length]? = some j := by
    rw [hR, List.getElem?_append_right (le_refl _)]; simp
  rw [List.getElem?_rotate (by simp; omega)] at hidx
  simp only [List.length_range] at hidx
  rw [List.getElem?_range (Nat.mod_lt _ (by decide))] at hidx
  have hj : j = (pre.length + c) % MAX_CHILDREN := by
    injection hidx with hidx; exact hidx.symm
  have hmod : (j + 1) % MAX_CHILDREN = (c + (pre.length + 1)) % MAX_CHILDREN := by
    simp only [MAX_CHILDREN] at *; omega
  rw [circularOrder_eq_rotate _ (Nat.mod_lt _ (by decide)), hmod]
  have hrot : (List.range MAX_CHILDREN).rotate ((c + (pre.length + 1)) % MAX_CHILDREN)
      = post ++ (pre ++ [j]) := by
    have h1 := List.rotate_mod (List.range MAX_CHILDREN) (c + (pre.length + 1))
    simp only [List.length_range] at h1
    rw [h1, ← List.rotate_rotate, hR]
    have h2 : pre ++ j :: post = (pre ++ [j]) ++ post := by simp
    have h3 : pre.length + 1 = (pre ++ [j]).length := by simp
    rw [h2, h3, List.rotate_append_length_eq]
  rw [hrot, List.filter_append, List.filter_append, hpost]
  have hpre0 : List.filter p pre = [] := by
    rw [List.filter_eq_nil_iff]; exact hpre
  simp [hpre0, hpj]

theorem find?_of_filter_eq_cons (p : Nat → Bool) (l : List Nat) (j : Nat) (rest : List Nat)
    (h : l.filter p = j :: rest) : l.find? p = some j := by
  obtain ⟨pre, post, hR, hpre, hpj, _⟩ := List.filter_eq_cons_iff.mp h
  rw [hR, List.find?_append]
  have : List.find? p pre = none := by
    rw [List.find?_eq_none]; exact hpre
  simp [this, hpj]

/-- One dispatch with a continue reply, when the first occupied slot of the
circular order from the cursor is `j`. -/
theorem dispatchPhase_continue (inp : Input) (s : State)
    (hc : s.roundRobinIndex < MAX_CHILDREN) (hrun : 0 < s.runningCount)
    (hs : inp.sndOk = true) (hr : inp.rcvOk = true) (hrep : inp.reply ≠ 0)
    (j : Nat) (rest : List Nat)
    (h : (circularOrder s.roundRobinIndex).filter
      (fun i => decide ((slot s.processTable i).occupied ≠ 0)) = j :: rest) :
    dispatchPhase inp s = some { s with
      processTable := s.processTable.set j
        { slot s.processTable j with messagesSent := (slot s.processTable j).messagesSent + 1 }
      roundRobinIndex := (j + 1) % MAX_CHILDREN
      totalMessagesSent := s.totalMessagesSent + 1 } := by
  unfold dispatchPhase
  rw [nextOccupiedFrom_eq _ _ hc, find?_of_filter_eq_cons _ _ _ _ h]
  simp [hrun, hs, hr, hrep]

theorem dispatchRun_continue (p : Nat → Bool) : ∀ (inps : List Input) (s : State),
    s.processTable.length = MAX_CHILDREN → s.roundRobinIndex < MAX_CHILDREN →
    0 < s.runningCount →
    (∀ i, decide ((slot s.processTable i).occupied ≠ 0) = p i) →
    inps.length ≤ ((circularOrder s.roundRobinIndex).filter p).length →
    (∀ inp ∈ inps, inp.sndOk = true ∧ inp.rcvOk = true ∧ inp.reply ≠ 0) →
    ∃ s', dispatchRun inps s = some s' ∧ s'.runningCount = s.runningCount ∧
      s'.totalMessagesSent = s.totalMessagesSent + inps.length ∧
      ∀ i, (slot s'.processTable i).occupied = (slot s.processTable i).occupied ∧
        (slot s'.processTable i).messagesSent = (slot s.processTable i).messagesSent +
          (((circularOrder s.roundRobinIndex).filter p).take inps.length).count i := by
  intro inps
  induction inps with
  | nil =>
    intro s _ _ _ _ _ _
    exact ⟨s, rfl, rfl, by simp, fun i => ⟨rfl, by simp⟩⟩
  | cons inp rest ih =>
    intro s hl hc hrun hp hlen hcont
    obtain ⟨hs, hr, hrep⟩ := hcont inp (List.mem_cons_self _ _)
    cases hL : (circularOrder s.roundRobinIndex).filter p with
    | nil => rw [hL] at hlen; simp at hlen
    | cons j tl =>
      have hp' : (fun i => decide ((slot s.processTable i).occupied ≠ 0)) = p := funext hp
      have hstep := dispatchPhase_continue inp s hc hrun hs hr hrep j tl (by rw [hp']; exact hL)
      obtain ⟨hj20, hnext⟩ := circularOrder_filter_next p _ hc j tl hL
      have hocc1 : ∀ i, (slot (s.processTable.set j { slot s.processTable j with
          messagesSent := (slot s.processTable j).messagesSent + 1 }) i).occupied
          = (slot s.processTable i).occupied := by
        intro i
        rw [slot_set]
        split
        · rename_i h; rw [← h.1]
        · rfl
      have hlen' : rest.length ≤ tl.length := by
        rw [hL] at hlen; simpa using hlen
      obtain ⟨s', hrun', hrc', htot', hall⟩ := ih
        { s with
          processTable := s.processTable.set j
            { slot s.processTable j with messagesSent := (slot s.processTable j).messagesSent + 1 }
          roundRobinIndex := (j + 1) % MAX_CHILDREN
          totalMessagesSent := s.totalMessagesSent + 1 }
        (by simp [hl]) (Nat.mod_lt _ (by decide)) hrun
        (by intro i; simp only [hocc1]; exact hp i)
        (by simp only [hnext, List.length_append, List.length_singleton]; omega)
        (fun x hx => hcont x (List.mem_cons_of_mem _ hx))
      refine ⟨s', ?_, hrc', ?_, fun i => ?_⟩
      · simp only [dispatchRun, hstep]; exact hrun'
      · rw [htot']; simp only [List.length_cons]; push_cast; omega
      · obtain ⟨ho, hm⟩ := hall i
        refine ⟨by rw [ho]; exact hocc1 i, ?_⟩
        rw [hm]
        simp only [hnext, List.take_append_of_le_length hlen', List.length_cons,
          List.take_succ_cons, List.count_cons]
        rw [slot_set]
        by_cases hij : j = i
        · subst hij
          simp [show j < s.processTable.length by omega]
          omega
        · simp [hij]

theorem filter_circularOrder_length (t : List PCB) (c : Nat) (hc : c < MAX_CHILDREN) :
    ((circularOrder c).filter (fun i => decide ((slot t i).occupied ≠ 0))).length
      = occCount t := by
  unfold occCount
  rw [circularOrder_eq_rotate c hc]
  exact ((List.rotate_perm _ _).filter _).length_eq

theorem count_filter_circularOrder (p : Nat → Bool) (c : Nat) (hc : c < MAX_CHILDREN) (i : Nat)
    (hi : i < MAX_CHILDREN) :
    ((circularOrder c).filter p).count i = if p i = true then 1 else 0 := by
  by_cases h : p i = true
  · rw [List.count_filter h, if_pos h]
    exact List.count_eq_one_of_mem (nodup_circularOrder c hc) ((mem_circularOrder c hc i).mpr hi)
  · rw [if_neg h, List.count_eq_zero]
    intro hm
    exact h (List.mem_filter.mp hm).2

/-- An iteration of the main loop in which the reap and the admission step
change nothing is the clock advance followed by the dispatch step. -/
theorem mainLoopBody_dispatch_only (cfg : Config) (inp : Input) (s s1 : State)
    (h1 : clockPhase s = some s1) (hreap : reapPhase inp.pidTerm s1 = s1)
    (hadm : admitPhase cfg inp (currentSimTime s1.shmClock) s1 = some s1) :
    mainLoopBody cfg inp s = dispatchPhase inp s1 := by
  unfold mainLoopBody
  rw [h1]
  simp only
  rw [hreap, hadm]

/-- The dispatch step does not read the clock. -/
theorem dispatchPhase_clock_irrelevant (inp : Input) (s : State) (c : Clock) :
    dispatchPhase inp { s with shmClock := c }
      = (dispatchPhase inp s).map (fun s4 => { s4 with shmClock := c }) := by
  unfold dispatchPhase
  simp only
  split
  · cases nextOccupiedFrom s.processTable s.roundRobinIndex with
    | none => rfl
    | some r =>
      obtain ⟨found, rr⟩ := r
      cases found with
      | false => rfl
      | true =>
        simp only
        split
        · rfl
        · split
          · rfl
          · split <;> rfl
  · rfl

/-- C3: round-robin fairness.  From any state whose table has its 20 entries,
whose cursor is in `[0, 20)` and whose `runningCount` is positive, `k`
consecutive dispatches with continue replies and nothing reaped or launched in
between, where `k` is the number of occupied slots, all succeed; they leave
the occupancy of every slot and `runningCount` unchanged, send `k` messages in
total, and raise `messagesSent` by exactly one on every occupied slot and by
nothing on every free slot: each occupied slot is serviced exactly once. -/
theorem round_robin_fair (s : State) (inps : List Input)
    (hl : s.processTable.length = MAX_CHILDREN) (hc : s.roundRobinIndex < MAX_CHILDREN)
    (hrun : 0 < s.runningCount) (hk : inps.length = occCount s.processTable)
    (hcont : ∀ inp ∈ inps, inp.sndOk = true ∧ inp.rcvOk = true ∧ inp.reply ≠ 0) :
    ∃ s', dispatchRun inps s = some s' ∧ s'.runningCount = s.runningCount ∧
      s'.totalMessagesSent = s.totalMessagesSent + occCount s.processTable ∧
      ∀ i, i < MAX_CHILDREN →
        (slot s'.processTable i).occupied = (slot s.processTable i).occupied ∧
        (slot s'.processTable i).messagesSent = (slot s.processTable i).messagesSent +
          (if (slot s.processTable i).occupied ≠ 0 then 1 else 0) := by
  have hlen := filter_circularOrder_length s.processTable s.roundRobinIndex hc
  obtain ⟨s', h1, h2, h3, h4⟩ := dispatchRun_continue
    (fun i => decide ((slot s.processTable i).occupied ≠ 0)) inps s hl hc hrun (fun _ => rfl)
    (by rw [hlen, hk]) hcont
  refine ⟨s', h1, h2, by rw [h3, hk], fun i hi => ⟨(h4 i).1, ?_⟩⟩
  rw [(h4 i).2, hk, ← hlen, List.take_length,
    count_filter_circularOrder _ _ hc i hi]
  by_cases h : (slot s.processTable i).occupied = 0 <;> simp [h]

/-- A concrete instance: two workers in slots 0 and 3, cursor at 2, two
dispatches with continue replies. -/
theorem round_robin_fair_witness :
    fairState.processTable.length = MAX_CHILDREN ∧ fairState.roundRobinIndex < MAX_CHILDREN ∧
    0 < fairState.runningCount ∧
    [inpContinue, inpContinue].length = occCount fairState.processTable ∧
    (∀ inp ∈ [inpContinue, inpContinue],
      inp.sndOk = true ∧ inp.rcvOk = true ∧ inp.reply ≠ 0) ∧
    ∃ s', dispatchRun [inpContinue, inpContinue] fairState = some s' ∧
      s'.runningCount = fairState.runningCount ∧
      s'.totalMessagesSent = fairState.totalMessagesSent + occCount fairState.processTable ∧
      ∀ i, i < MAX_CHILDREN →
        (slot s'.processTable i).occupied = (slot fairState.processTable i).occupied ∧
        (slot s'.processTable i).messagesSent = (slot fairState.processTable i).messagesSent +
          (if (slot fairState.processTable i).occupied ≠ 0 then 1 else 0) :=
  ⟨by decide, by decide, by decide, by decide, by decide,
    round_robin_fair fairState [inpContinue, inpContinue] (by decide) (by decide) (by decide)
      (by decide) (by decide)⟩

/-- C9: the round-robin scan started at a cursor `c` in `[0, 20)` returns
found together with the first occupied slot of the circular order
`c, c+1, ..., 19, 0, ..., c-1` (slot `c` first); it returns not-found exactly
when no slot of the table is occupied, and then the cursor is back at `c`. -/
theorem scan_first_occupied (t : List PCB) (c : Nat) (hc : c < MAX_CHILDREN) :
    (nextOccupiedFrom t c =
      match (circularOrder c).find? (fun j => decide ((slot t j).occupied ≠ 0)) with
      | some j => some (true, j)
      | none => some (false, c)) ∧
    ((∃ rr, nextOccupiedFrom t c = some (false, rr)) ↔
      ∀ i, i < MAX_CHILDREN → (slot t i).occupied = 0) ∧
    (∀ rr, nextOccupiedFrom t c = some (false, rr) → rr = c) := by
  refine ⟨nextOccupiedFrom_eq t c hc, ?_, ?_⟩
  · constructor
    · rintro ⟨rr, hrr⟩
      rcases nextOccupiedFrom_cases t c hc with ⟨j, hj, _, _⟩ | ⟨_, hall⟩
      · rw [hj] at hrr; simp at hrr
      · exact hall
    · intro hall
      rcases nextOccupiedFrom_cases t c hc with ⟨j, _, hj20, hocc⟩ | ⟨hnf, _⟩
      · exact absurd (hall j hj20) hocc
      · exact ⟨c, hnf⟩
  · intro rr hrr
    rcases nextOccupiedFrom_cases t c hc with ⟨j, hj, _, _⟩ | ⟨hnf, _⟩
    · rw [hj] at hrr; simp at hrr
    · rw [hnf] at hrr
      injection hrr with hrr
      injection hrr with _ hrr
      exact hrr.symm

/-- A concrete instance: from cursor 4 the scan over `fairState` wraps around
and stops at slot 0. -/
theorem scan_first_occupied_witness :
    4 < MAX_CHILDREN ∧ circularOrder 4 =
      [4, 5, 6, 7, 8, 9, 10, 11, 12, 13, 14, 15, 16, 17, 18, 19, 0, 1, 2, 3] ∧
    nextOccupiedFrom fairState.processTable 4 = some (true, 0) ∧
    ((nextOccupiedFrom fairState.processTable 4 =
      match (circularOrder 4).find?
          (fun j => decide ((slot fairState.processTable j).occupied ≠ 0)) with
      | some j => some (true, j)
      | none => some (false, 4)) ∧
    ((∃ rr, nextOccupiedFrom fairState.processTable 4 = some (false, rr)) ↔
      ∀ i, i < MAX_CHILDREN → (slot fairState.processTable i).occupied = 0) ∧
    (∀ rr, nextOccupiedFrom fairState.processTable 4 = some (false, rr) → rr = 4)) :=
  ⟨by decide, by decide, by decide, scan_first_occupied fairState.processTable 4 (by decide)⟩

/-! ## Worker reply and the table-capacity ceiling -/

/-- C4: on a wake the worker replies terminate (`mtext = 0`) exactly when the
clock it reads is strictly greater than its termination time in the
lexicographic order on (seconds, nanoseconds), that is `sec > termSeconds`, or
`sec = termSeconds` and `nano > termNano`; in every other case it replies
continue (`mtext = 1`), in particular when the clock equals the termination
time. -/
theorem reply_terminate_iff (sec nano termSeconds termNano : Int) :
    (Worker.reply sec nano termSeconds termNano = 0 ↔
      toLex (termSeconds, termNano) < toLex (sec, nano)) ∧
    (Worker.reply sec nano termSeconds termNano = 0 ↔
      (sec > termSeconds ∨ (sec = termSeconds ∧ nano > termNano))) ∧
    (Worker.reply sec nano termSeconds termNano ≠ 0 →
      Worker.reply sec nano termSeconds termNano = 1) ∧
    Worker.reply termSeconds termNano termSeconds termNano = 1 := by
  have key : Worker.reply sec nano termSeconds termNano = 0 ↔
      (sec > termSeconds ∨ (sec = termSeconds ∧ nano > termNano)) := by
    unfold Worker.reply
    split <;> simp_all
  refine ⟨?_, key, ?_, ?_⟩
  · rw [key, Prod.Lex.lt_iff]
    simp only [gt_iff_lt]
    constructor
    · rintro (h | ⟨h1, h2⟩)
      · exact Or.inl h
      · exact Or.inr ⟨h1.symm, h2⟩
    · rintro (h | ⟨h1, h2⟩)
      · exact Or.inl h
      · exact Or.inr ⟨h1.symm, h2⟩
  · intro h
    unfold Worker.reply at h ⊢
    split <;> simp_all
  · unfold Worker.reply
    simp

/-- C10: when all 20 table slots are occupied the admission step launches
nothing: whatever the configuration, the inputs and the current simulated time
(so also when `launchedCount < totalProcs`, `runningCount < simulLimit` and the
launch interval has elapsed), it returns the state unchanged and does not
abort. -/
theorem full_table_no_launch (cfg : Config) (inp : Input) (simTime : Int) (s : State)
    (hfull : ∀ i, i < MAX_CHILDREN → (slot s.processTable i).occupied ≠ 0) :
    admitPhase cfg inp simTime s = some s := by
  have hnone : findFreeSlot s.processTable MAX_CHILDREN 0 = none := by
    rw [findFreeSlot_none]
    intro k _ hk
    exact hfull k (by omega)
  unfold admitPhase
  rw [hnone]
  split <;> rfl

/-- A concrete instance: a full table under a concurrency limit of 25, with
workers left to launch and the launch interval elapsed. -/
theorem full_table_no_launch_witness :
    (∀ i, i < MAX_CHILDREN → (slot fullState.processTable i).occupied ≠ 0) ∧
    (fullState.launchedCount < fullCfg.totalProcs ∧
      fullState.runningCount < fullCfg.simulLimit ∧
      toUInt64 (currentSimTime fullState.shmClock - fullState.lastLaunchTime) ≥
        toUInt64 (toUInt64 fullCfg.launchIntervalMs * 1000000)) ∧
    admitPhase fullCfg inpContinue (currentSimTime fullState.shmClock) fullState
      = some fullState :=
  ⟨by decide, by decide,
    full_table_no_launch fullCfg inpContinue (currentSimTime fullState.shmClock) fullState
      (by decide)⟩

/-! ## The simulated clock -/

/-- The clock advance on a normalized clock, for a positive argument: the
nanoseconds grow by `250000000 / a`, one second is carried when they reach
`ONE_BILLION`, and the carry wraps the seconds at `2147483647`. -/
theorem incrementClock_eq (c : Clock) (a : Int) (ha : 1 ≤ a) (hc : ClockOK c) :
    incrementClock c a = some
      (if c.nano + 250000000 / a ≥ ONE_BILLION then
        { sec := if c.sec = 2147483647 then -2147483648 else c.sec + 1
          nano := c.nano + 250000000 / a - ONE_BILLION }
      else { sec := c.sec, nano := c.nano + 250000000 / a }) := by
  obtain ⟨h1, h2, h3, h4⟩ := hc
  have hd0 : 0 ≤ (250000000 : Int) / a := Int.ediv_nonneg (by decide) (by omega)
  have hd1 : (250000000 : Int) / a ≤ 250000000 := Int.ediv_le_self a (by decide)
  have htd : Int.tdiv 250000000 a = 250000000 / a :=
    Int.tdiv_eq_ediv (by decide) (by omega)
  unfold incrementClock
  rw [if_neg (by omega), htd]
  generalize (250000000 : Int) / a = d at hd0 hd1 ⊢
  simp only [ONE_BILLION, toUInt64, toInt32] at *
  have hu : (c.nano + d) % 18446744073709551616 = c.nano + d := by omega
  simp only [hu]
  by_cases hge : c.nano + d ≥ 1000000000
  · simp only [hge, if_true, Option.some.injEq, Clock.mk.injEq]
    constructor
    · split <;> omega
    · omega
  · simp only [hge, if_false]

theorem admitPhase_clock {cfg : Config} {inp : Input} {T : Int} {s s3 : State}
    (h : admitPhase cfg inp T s = some s3) : s3.shmClock = s.shmClock := by
  unfold admitPhase at h
  split at h
  · split at h
    · injection h with h; subst h; rfl
    · split at h
      · simp at h
      · split at h
        · simp at h
        · split at h
          · simp at h
          · injection h with h; subst h; rfl
  · injection h with h; subst h; rfl

theorem dispatchPhase_clock {inp : Input} {s s4 : State}
    (h : dispatchPhase inp s = some s4) : s4.shmClock = s.shmClock := by
  unfold dispatchPhase at h
  split at h
  · split at h
    · simp at h
    · injection h with h; subst h; rfl
    · split at h
      · simp at h
      · split at h
        · simp at h
        · split at h <;> (injection h with h; subst h; rfl)
  · injection h with h; subst h; rfl

/-- The clock after a completed iteration is the clock after its first step. -/
theorem mainLoopBody_clock {cfg : Config} {inp : Input} {s s' : State}
    (h : mainLoopBody cfg inp s = some s') :
    ∃ s1, clockPhase s = some s1 ∧ s'.shmClock = s1.shmClock := by
  unfold mainLoopBody at h
  split at h
  · simp at h
  · rename_i s1 h1
    split at h
    · simp at h
    · rename_i s3 h3
      refine ⟨s1, h1, ?_⟩
      rw [dispatchPhase_clock h, admitPhase_clock h3]
      rfl

/-- The first step of an iteration from a state with `runningCount >= 0` and a
normalized clock. -/
theorem clockPhase_eq (s : State) (hrc : 0 ≤ s.runningCount) (hc : ClockOK s.shmClock) :
    clockPhase s = some { s with shmClock :=
      (if s.shmClock.nano + 250000000 / max s.runningCount 1 ≥ ONE_BILLION then
        { sec := if s.shmClock.sec = 2147483647 then -2147483648 else s.shmClock.sec + 1
          nano := s.shmClock.nano + 250000000 / max s.runningCount 1 - ONE_BILLION }
      else { sec := s.shmClock.sec
             nano := s.shmClock.nano + 250000000 / max s.runningCount 1 }) } := by
  have harg : (if s.runningCount = 0 then 1 else s.runningCount) = max s.runningCount 1 := by
    split <;> omega
  unfold clockPhase
  rw [harg, incrementClock_eq _ _ (by omega) hc]

theorem clockPhase_clockOK {s s1 : State} (hrc : 0 ≤ s.runningCount) (hc : ClockOK s.shmClock)
    (h : clockPhase s = some s1) : ClockOK s1.shmClock := by
  rw [clockPhase_eq s hrc hc] at h
  injection h with h; subst h
  obtain ⟨h1, h2, h3, h4⟩ := hc
  have hd0 : 0 ≤ (250000000 : Int) / max s.runningCount 1 :=
    Int.ediv_nonneg (by decide) (by omega)
  have hd1 : (250000000 : Int) / max s.runningCount 1 ≤ 250000000 :=
    Int.ediv_le_self _ (by decide)
  simp only [ONE_BILLION] at *
  unfold ClockOK
  simp only [ONE_BILLION]
  split
  · refine ⟨by simp only; omega, by simp only; omega, ?_, ?_⟩ <;> (simp only; split <;> omega)
  · exact ⟨by simp only; omega, by simp only; omega, h3, h4⟩

theorem reachable_clockOK {cfg : Config} {s : State} (h : Reachable cfg s) :
    ClockOK s.shmClock := by
  induction h with
  | init => unfold ClockOK; decide
  | @iter s0 _ inp hr _ hb ih =>
    obtain ⟨s1, h1, h2⟩ := mainLoopBody_clock hb
    rw [h2]
    have hrc : 0 ≤ s0.runningCount := by
      have := (reachable_inv hr).1.2.1
      rw [this]; exact Int.ofNat_nonneg _
    exact clockPhase_clockOK hrc ih h1

theorem idle_tail (c : Clock) (T : Int) :
    (match admitPhase cfgIdle inpIdle T
        (reapPhase inpIdle.pidTerm { initState with shmClock := c }) with
      | none => none
      | some s3 => dispatchPhase inpIdle s3) = some { initState with shmClock := c } := by
  simp [admitPhase, reapPhase, reap, dispatchPhase, initState, cfgIdle, inpIdle]

/-- An idle iteration (`simulLimit = 0`, nothing running) only advances the
clock by 250,000,000 ns. -/
theorem idle_step (sec nano : Int) (hc : ClockOK { sec := sec, nano := nano }) :
    mainLoopBody cfgIdle inpIdle (idleState sec nano) = some
      (if nano + 250000000 ≥ 1000000000 then
        idleState (if sec = 2147483647 then -2147483648 else sec + 1)
          (nano + 250000000 - 1000000000)
      else idleState sec (nano + 250000000)) := by
  have hrc : (0 : Int) ≤ (idleState sec nano).runningCount := le_refl _
  unfold mainLoopBody
  rw [clockPhase_eq (idleState sec nano) hrc hc]
  have h0 : (idleState sec nano).runningCount = 0 := rfl
  have h1 : (idleState sec nano).shmClock = { sec := sec, nano := nano } := rfl
  simp only [h0, h1, max_eq_right (show (0 : Int) ≤ 1 by decide), Int.ediv_one, ONE_BILLION]
  have key := fun X => idle_tail X (currentSimTime X)
  refine Eq.trans (key _) ?_
  split <;> rfl

theorem idle_loopCond (sec nano : Int) : loopCond cfgIdle (idleState sec nano) :=
  Or.inl (show (0 : Int) < 1 by decide)

theorem idle_reach_second : ∀ n : Nat, n ≤ 2147483647 →
    Reachable cfgIdle (idleState (n : Int) 0) := by
  intro n
  induction n with
  | zero => intro _; exact Reachable.init
  | succ n ih =>
    intro hn
    have h0 := ih (by omega)
    have hr1 : Reachable cfgIdle (idleState (n : Int) 250000000) := by
      refine Reachable.iter inpIdle h0 (idle_loopCond _ _) ?_
      rw [idle_step _ _ (by unfold ClockOK; simp only [ONE_BILLION]; omega)]
      simp
    have hr2 : Reachable cfgIdle (idleState (n : Int) 500000000) := by
      refine Reachable.iter inpIdle hr1 (idle_loopCond _ _) ?_
      rw [idle_step _ _ (by unfold ClockOK; simp only [ONE_BILLION]; omega)]
      simp
    have hr3 : Reachable cfgIdle (idleState (n : Int) 750000000) := by
      refine Reachable.iter inpIdle hr2 (idle_loopCond _ _) ?_
      rw [idle_step _ _ (by unfold ClockOK; simp only [ONE_BILLION]; omega)]
      simp
    refine Reachable.iter inpIdle hr3 (idle_loopCond _ _) ?_
    rw [idle_step _ _ (by unfold ClockOK; simp only [ONE_BILLION]; omega)]
    have hne : ¬ ((n : Int) = 2147483647) := by omega
    simp [hne]

/-! ### Runs shorter than the range of the 32-bit seconds

One iteration advances the clock by at most 250,000,000 ns, so after `n`
iterations it reads at most `n / 4` seconds.  The seconds are a 32-bit `int`
and can hold 2,147,483,647; they can overflow in the iteration entered after
8,589,934,591 completed iterations and not earlier.  The coordinator arms
`alarm(60)` before the loop and every iteration makes a `waitpid` system call,
so the runs of the program stay far below that number of iterations. -/

theorem reachableIn_reachable {cfg : Config} {n : Nat} {s : State}
    (h : ReachableIn cfg n s) : Reachable cfg s := by
  induction h with
  | init => exact Reachable.init
  | iter inp _ hc hb ih => exact Reachable.iter inp ih hc hb

theorem reachable_reachableIn {cfg : Config} {s : State} (h : Reachable cfg s) :
    ∃ n, ReachableIn cfg n s := by
  induction h with
  | init => exact ⟨0, ReachableIn.init⟩
  | iter inp _ hc hb ih =>
    obtain ⟨n, hn⟩ := ih
    exact ⟨n + 1, ReachableIn.iter inp hn hc hb⟩

theorem clockWithin_clockOK {n : Nat} {c : Clock} (h : ClockWithin n c)
    (hn : n ≤ 8589934591) : ClockOK c := by
  obtain ⟨h1, h2, h3, h4⟩ := h
  unfold ClockOK
  simp only [ONE_BILLION] at *
  refine ⟨h2, h3, by omega, by omega⟩

theorem currentSimTime_within {n : Nat} {c : Clock} (h : ClockWithin n c)
    (hn : n ≤ 8589934591) : currentSimTime c = c.sec * 1000000000 + c.nano := by
  obtain ⟨h1, h2, h3, h4⟩ := h
  unfold currentSimTime toUInt64
  simp only [ONE_BILLION] at *
  omega

/-- The clock advance of an iteration entered after fewer than 8,589,934,591
iterations: it succeeds, adds exactly `250000000 / max runningCount 1` to the
total, carries into the seconds without overflow, and keeps the bound. -/
theorem clockPhase_within {n : Nat} {s : State} (hrc : 0 ≤ s.runningCount)
    (hw : ClockWithin n s.shmClock) (hn : n < 8589934591) :
    ∃ s1, clockPhase s = some s1 ∧ ClockWithin (n + 1) s1.shmClock ∧
      s1.shmClock.sec * 1000000000 + s1.shmClock.nano
        = s.shmClock.sec * 1000000000 + s.shmClock.nano
          + 250000000 / max s.runningCount 1 ∧
      s1.shmClock.sec = s.shmClock.sec
        + (s.shmClock.nano + 250000000 / max s.runningCount 1) / 1000000000 ∧
      s1.shmClock.nano
        = (s.shmClock.nano + 250000000 / max s.runningCount 1) % 1000000000 ∧
      (s.shmClock.sec < s1.shmClock.sec ∨
        (s.shmClock.sec = s1.shmClock.sec ∧ s.shmClock.nano ≤ s1.shmClock.nano)) := by
  refine ⟨_, clockPhase_eq s hrc (clockWithin_clockOK hw (by omega)), ?_⟩
  obtain ⟨h1, h2, h3, h4⟩ := hw
  have hd0 : 0 ≤ (250000000 : Int) / max s.runningCount 1 :=
    Int.ediv_nonneg (by decide) (by omega)
  have hd1 : (250000000 : Int) / max s.runningCount 1 ≤ 250000000 :=
    Int.ediv_le_self _ (by decide)
  generalize (250000000 : Int) / max s.runningCount 1 = d at hd0 hd1 ⊢
  unfold ClockWithin
  simp only [ONE_BILLION] at *
  split
  · simp only
    rw [if_neg (by omega)]
    refine ⟨⟨by omega, by omega, by omega, ?_⟩, by omega, by omega, by omega,
      Or.inl (by omega)⟩
    push_cast
    omega
  · simp only
    refine ⟨⟨by omega, by omega, by omega, ?_⟩, by omega, by omega, by omega,
      Or.inr ⟨trivial, by omega⟩⟩
    push_cast
    omega

theorem reachableIn_clockWithin {cfg : Config} {n : Nat} {s : State}
    (h : ReachableIn cfg n s) : n ≤ 8589934591 → ClockWithin n s.shmClock := by
  induction h with
  | init => intro _; unfold ClockWithin; decide
  | @iter n s0 s1 inp hr _ hb ih =>
    intro hn
    have hw := ih (by omega)
    have hrc : 0 ≤ s0.runningCount := by
      rw [(reachable_inv (reachableIn_reachable hr)).1.2.1]; exact Int.ofNat_nonneg _
    obtain ⟨t1, ht1, hw1, _⟩ := clockPhase_within hrc hw (by omega)
    obtain ⟨t1', ht1', hclk⟩ := mainLoopBody_clock hb
    rw [ht1] at ht1'
    injection ht1' with ht1'
    rw [hclk, ← ht1']
    exact hw1

theorem demoState1_reachableIn : ReachableIn demoCfg 1 demoState1 :=
  ReachableIn.iter inpContinue ReachableIn.init (by decide) (by decide)

/-- C5: clock monotonicity.  In every state reached by the main loop from the
zeroed clock the nanoseconds are in `[0, 1,000,000,000)`; and across every
iteration entered after fewer than 8,589,934,591 completed iterations (the
number of iterations the 32-bit seconds last for at 250,000,000 ns per
iteration, far beyond any run the watchdog `alarm(60)` allows) the
(seconds, nanoseconds) pair does not decrease in lexicographic order. -/
theorem clock_never_decreases (cfg : Config) (n : Nat) (s : State)
    (hs : ReachableIn cfg n s) :
    (0 ≤ s.shmClock.nano ∧ s.shmClock.nano < ONE_BILLION) ∧
    (n < 8589934591 → ∀ (inp : Input) (s' : State), mainLoopBody cfg inp s = some s' →
      (0 ≤ s'.shmClock.nano ∧ s'.shmClock.nano < ONE_BILLION) ∧
      toLex (s.shmClock.sec, s.shmClock.nano)
        ≤ toLex (s'.shmClock.sec, s'.shmClock.nano)) := by
  have hc := reachable_clockOK (reachableIn_reachable hs)
  refine ⟨⟨hc.1, hc.2.1⟩, fun hn inp s' hstep => ?_⟩
  have hrc : 0 ≤ s.runningCount := by
    rw [(reachable_inv (reachableIn_reachable hs)).1.2.1]; exact Int.ofNat_nonneg _
  have hw := reachableIn_clockWithin hs (by omega)
  obtain ⟨s1, h1, hw1, _, _, _, hmono⟩ := clockPhase_within hrc hw hn
  obtain ⟨s1', h1', hclk⟩ := mainLoopBody_clock hstep
  rw [h1] at h1'
  injection h1' with h1'
  rw [hclk, ← h1', Prod.Lex.le_iff]
  exact ⟨⟨hw1.2.1, hw1.2.2.1⟩, hmono⟩

/-- A concrete instance: the second iteration of the run of `demoCfg`. -/
theorem clock_never_decreases_witness :
    ReachableIn demoCfg 1 demoState1 ∧ 1 < 8589934591 ∧
    mainLoopBody demoCfg inpTerminate demoState1 = some demoState2 ∧
    (0 ≤ demoState1.shmClock.nano ∧ demoState1.shmClock.nano < ONE_BILLION) ∧
    (0 ≤ demoState2.shmClock.nano ∧ demoState2.shmClock.nano < ONE_BILLION) ∧
    toLex (demoState1.shmClock.sec, demoState1.shmClock.nano)
      ≤ toLex (demoState2.shmClock.sec, demoState2.shmClock.nano) :=
  ⟨demoState1_reachableIn, by decide, by decide,
    (clock_never_decreases demoCfg 1 demoState1 demoState1_reachableIn).1,
    (clock_never_decreases demoCfg 1 demoState1 demoState1_reachableIn).2 (by decide)
      inpTerminate demoState2 (by decide)⟩

/-- C6: the clock advance.  In every state reached by the main loop after
fewer than 8,589,934,591 completed iterations (far beyond any run the watchdog
`alarm(60)` allows), with active count `a = runningCount`, the clock is
normalized and the advance at the top of the loop succeeds and increases
`seconds * 1,000,000,000 + nanoseconds` by exactly `250000000 / max a 1`
(integer division); the new nanoseconds are in `[0, 1,000,000,000)`, the
overflow being carried into the seconds; with `a = 0` the advance is exactly
250,000,000 ns. -/
theorem clock_advance_amount (cfg : Config) (n : Nat) (s : State)
    (hs : ReachableIn cfg n s) (hn : n < 8589934591) :
    (0 ≤ s.shmClock.nano ∧ s.shmClock.nano < 1000000000) ∧
    ∃ s1, clockPhase s = some s1 ∧
      s1.shmClock.sec * 1000000000 + s1.shmClock.nano
        = s.shmClock.sec * 1000000000 + s.shmClock.nano
          + 250000000 / max s.runningCount 1 ∧
      (0 ≤ s1.shmClock.nano ∧ s1.shmClock.nano < 1000000000) ∧
      s1.shmClock.sec = s.shmClock.sec
        + (s.shmClock.nano + 250000000 / max s.runningCount 1) / 1000000000 ∧
      s1.shmClock.nano
        = (s.shmClock.nano + 250000000 / max s.runningCount 1) % 1000000000 ∧
      (s.runningCount = 0 →
        s1.shmClock.sec * 1000000000 + s1.shmClock.nano
          = s.shmClock.sec * 1000000000 + s.shmClock.nano + 250000000) := by
  have hrc : 0 ≤ s.runningCount := by
    rw [(reachable_inv (reachableIn_reachable hs)).1.2.1]; exact Int.ofNat_nonneg _
  have hw := reachableIn_clockWithin hs (by omega)
  obtain ⟨s1, h1, hw1, htot, hsec, hnano, _⟩ := clockPhase_within hrc hw hn
  refine ⟨⟨hw.2.1, hw.2.2.1⟩, s1, h1, htot, ⟨hw1.2.1, hw1.2.2.1⟩, hsec, hnano, fun hz => ?_⟩
  have hone : (250000000 : Int) / max 0 1 = 250000000 := by decide
  rw [htot, hz, hone]

/-- A concrete instance: the clock advance from the state after the first
iteration of `demoCfg`, with one worker running. -/
theorem clock_advance_amount_witness :
    ReachableIn demoCfg 1 demoState1 ∧ 1 < 8589934591 ∧
    ((0 ≤ demoState1.shmClock.nano ∧ demoState1.shmClock.nano < 1000000000) ∧
    ∃ s1, clockPhase demoState1 = some s1 ∧
      s1.shmClock.sec * 1000000000 + s1.shmClock.nano
        = demoState1.shmClock.sec * 1000000000 + demoState1.shmClock.nano
          + 250000000 / max demoState1.runningCount 1 ∧
      (0 ≤ s1.shmClock.nano ∧ s1.shmClock.nano < 1000000000) ∧
      s1.shmClock.sec = demoState1.shmClock.sec
        + (demoState1.shmClock.nano + 250000000 / max demoState1.runningCount 1) / 1000000000 ∧
      s1.shmClock.nano
        = (demoState1.shmClock.nano + 250000000 / max demoState1.runningCount 1) % 1000000000 ∧
      (demoState1.runningCount = 0 →
        s1.shmClock.sec * 1000000000 + s1.shmClock.nano
          = demoState1.shmClock.sec * 1000000000 + demoState1.shmClock.nano + 250000000)) :=
  ⟨demoState1_reachableIn, by decide,
    clock_advance_amount demoCfg 1 demoState1 demoState1_reachableIn (by decide)⟩

theorem idle_reachIn_second : ∀ k : Nat, k ≤ 2147483647 →
    ReachableIn cfgIdle (4 * k) (idleState (k : Int) 0) := by
  intro k
  induction k with
  | zero => intro _; exact ReachableIn.init
  | succ k ih =>
    intro hk
    have h0 := ih (by omega)
    have hr1 : ReachableIn cfgIdle (4 * k + 1) (idleState (k : Int) 250000000) := by
      refine ReachableIn.iter inpIdle h0 (idle_loopCond _ _) ?_
      rw [idle_step _ _ (by unfold ClockOK; simp only [ONE_BILLION]; omega)]
      simp
    have hr2 : ReachableIn cfgIdle (4 * k + 1 + 1) (idleState (k : Int) 500000000) := by
      refine ReachableIn.iter inpIdle hr1 (idle_loopCond _ _) ?_
      rw [idle_step _ _ (by unfold ClockOK; simp only [ONE_BILLION]; omega)]
      simp
    have hr3 : ReachableIn cfgIdle (4 * k + 1 + 1 + 1) (idleState (k : Int) 750000000) := by
      refine ReachableIn.iter inpIdle hr2 (idle_loopCond _ _) ?_
      rw [idle_step _ _ (by unfold ClockOK; simp only [ONE_BILLION]; omega)]
      simp
    have hidx : 4 * (k + 1) = 4 * k + 1 + 1 + 1 + 1 := by omega
    rw [hidx]
    refine ReachableIn.iter inpIdle hr3 (idle_loopCond _ _) ?_
    rw [idle_step _ _ (by unfold ClockOK; simp only [ONE_BILLION]; omega)]
    have hne : ¬ ((k : Int) = 2147483647) := by omega
    simp [hne]

/-- The number of iterations in `clockPhase_within` cannot be raised: the
idle loop of `cfgIdle` is at the clock `(2147483647, 750000000)` after
8,589,934,591 iterations, and the next advance carries one second through
`unsigned long long` into the 32-bit seconds, which become `-2147483648`. -/
theorem clock_within_sharp :
    ReachableIn cfgIdle 8589934591 (idleState 2147483647 750000000) ∧
    mainLoopBody cfgIdle inpIdle (idleState 2147483647 750000000)
      = some (idleState (-2147483648) 0) := by
  refine ⟨?_, by decide⟩
  have h0 : ReachableIn cfgIdle 8589934588 (idleState 2147483647 0) := by
    simpa using idle_reachIn_second 2147483647 (le_refl _)
  have hr1 : ReachableIn cfgIdle 8589934589 (idleState 2147483647 250000000) :=
    ReachableIn.iter inpIdle h0 (idle_loopCond _ _) (by decide)
  have hr2 : ReachableIn cfgIdle 8589934590 (idleState 2147483647 500000000) :=
    ReachableIn.iter inpIdle hr1 (idle_loopCond _ _) (by decide)
  exact ReachableIn.iter inpIdle hr2 (idle_loopCond _ _) (by decide)

/-! ## Reclamation -/

/-- A reap pass over slots that do not hold `p` changes nothing. -/
theorem reapLoop_no_match (p : Int) (t : List PCB) (rc : Int) : ∀ (n i : Nat),
    (∀ k, i ≤ k → k < i + n → ¬ ((slot t k).occupied ≠ 0 ∧ (slot t k).pid = p)) →
    reapLoop p n i (t, rc) = (t, rc) := by
  intro n
  induction n with
  | zero => intro i _; rfl
  | succ n ih =>
    intro i h
    unfold reapLoop
    rw [if_neg (h i (le_refl _) (by omega))]
    exact ih (i + 1) (fun k hk1 hk2 => h k (by omega) (by omega))

/-- After a reap pass over a table with pairwise distinct live pids, no
occupied slot among those passed holds `p`. -/
theorem reapLoop_clears (p : Int) (rc : Int) : ∀ (n i : Nat) (t : List PCB),
    i + n ≤ MAX_CHILDREN →
    (∀ a b, a < MAX_CHILDREN → b < MAX_CHILDREN → a ≠ b → (slot t a).occupied ≠ 0 →
      (slot t b).occupied ≠ 0 → (slot t a).pid ≠ (slot t b).pid) →
    (∀ k, k < i → ¬ ((slot t k).occupied ≠ 0 ∧ (slot t k).pid = p)) →
    ∀ k, k < i + n →
      ¬ ((slot (reapLoop p n i (t, rc)).1 k).occupied ≠ 0 ∧
        (slot (reapLoop p n i (t, rc)).1 k).pid = p) := by
  intro n
  induction n with
  | zero => intro i t _ _ hpre k hk; exact hpre k (by omega)
  | succ n ih =>
    intro i t hi hd hpre k hk
    unfold reapLoop
    split
    · rename_i hm
      simp only
      rw [slot_set]
      split
      · simp
      · rename_i hne
        rintro ⟨ho, hp⟩
        by_cases hki : k = i
        · subst hki
          have hlen : ¬ k < t.length := fun hl => hne ⟨rfl, hl⟩
          have : slot t k = zeroPCB := by
            unfold slot
            rw [List.getD_eq_getElem?_getD, List.getElem?_eq_none (Nat.le_of_not_lt hlen)]
            rfl
          rw [this] at ho
          exact ho rfl
        · exact hd k i (by omega) (by omega) hki ho hm.1 (by rw [hp, hm.2])
    · rename_i hm
      refine ih (i + 1) t (by omega) hd (fun j hj => ?_) k (by omega)
      by_cases hji : j = i
      · subst hji; exact hm
      · exact hpre j (by omega)

/-- C7: idempotence of reclamation.  For a 20-entry table whose occupied slots
hold pairwise distinct pids: reaping a pid twice gives the same table and
`runningCount` as reaping it once; reaping a pid that no occupied slot holds
changes nothing; once a slot has been freed (as the terminate handshake does,
with `runningCount` decremented) reaping its pid changes nothing; and one reap
frees at most one slot and lowers `runningCount` by exactly the number of
slots it freed. -/
theorem reap_idempotent (t : List PCB) (rc : Int) (p : Int)
    (hl : t.length = MAX_CHILDREN)
    (hdist : ∀ a, a < MAX_CHILDREN → ∀ b, b < MAX_CHILDREN →
      ((slot t a).occupied ≠ 0 ∧ (slot t b).occupied ≠ 0 ∧ (slot t a).pid = (slot t b).pid) →
      a = b) :
    reap p (reap p (t, rc)) = reap p (t, rc) ∧
    ((∀ k, k < MAX_CHILDREN → (slot t k).occupied ≠ 0 → (slot t k).pid ≠ p) →
      reap p (t, rc) = (t, rc)) ∧
    (∀ j, j < MAX_CHILDREN → (slot t j).occupied ≠ 0 →
      reap (slot t j).pid (t.set j { slot t j with occupied := 0 }, rc - 1)
        = (t.set j { slot t j with occupied := 0 }, rc - 1)) ∧
    (occCount (reap p (t, rc)).1 ≤ occCount t ∧
      occCount t ≤ occCount (reap p (t, rc)).1 + 1 ∧
      (reap p (t, rc)).2 = rc - ((occCount t : Int) - (occCount (reap p (t, rc)).1 : Int))) := by
  have hd : ∀ a b, a < MAX_CHILDREN → b < MAX_CHILDREN → a ≠ b → (slot t a).occupied ≠ 0 →
      (slot t b).occupied ≠ 0 → (slot t a).pid ≠ (slot t b).pid :=
    fun a b ha hb hab hoa hob hp => hab (hdist a ha b hb ⟨hoa, hob, hp⟩)
  refine ⟨?_, ?_, ?_, ?_⟩
  · unfold reap
    split
    · have hclr := reapLoop_clears p rc MAX_CHILDREN 0 t (by simp) hd
        (fun k hk => absurd hk (Nat.not_lt_zero k))
      exact reapLoop_no_match p _ _ MAX_CHILDREN 0
        (fun k _ hk => hclr k (by simpa using hk))
    · rfl
  · intro h
    unfold reap
    split
    · exact reapLoop_no_match p t rc MAX_CHILDREN 0
        (fun k _ hk hm => h k (by simpa using hk) hm.1 hm.2)
    · rfl
  · intro j hj ho
    unfold reap
    split
    · apply reapLoop_no_match
      intro k _ hk
      rw [slot_set]
      split
      · simp
      · rename_i hne
        rintro ⟨hok, hpk⟩
        have hkj : k ≠ j := fun h => hne ⟨h.symm, by omega⟩
        exact hd k j (by simpa using hk) hj hkj hok ho hpk
    · rfl
  · obtain ⟨_, h | ⟨h1, h2⟩⟩ := reap_spec p t rc hl
    · rw [h]; simp
    · refine ⟨by omega, by omega, ?_⟩
      rw [h1, h2]; push_cast; omega

/-- A concrete instance: reaping pid 11 from the table of `fairState`, which
frees slot 3. -/
theorem reap_idempotent_witness :
    fairState.processTable.length = MAX_CHILDREN ∧
    (∀ a, a < MAX_CHILDREN → ∀ b, b < MAX_CHILDREN →
      ((slot fairState.processTable a).occupied ≠ 0 ∧
        (slot fairState.processTable b).occupied ≠ 0 ∧
        (slot fairState.processTable a).pid = (slot fairState.processTable b).pid) →
      a = b) ∧
    (reap 11 (fairState.processTable, 2)).2 = 1 ∧
    (slot (reap 11 (fairState.processTable, 2)).1 3).occupied = 0 ∧
    (reap 11 (reap 11 (fairState.processTable, 2)) = reap 11 (fairState.processTable, 2) ∧
    ((∀ k, k < MAX_CHILDREN → (slot fairState.processTable k).occupied ≠ 0 →
        (slot fairState.processTable k).pid ≠ 11) →
      reap 11 (fairState.processTable, 2) = (fairState.processTable, 2)) ∧
    (∀ j, j < MAX_CHILDREN → (slot fairState.processTable j).occupied ≠ 0 →
      reap (slot fairState.processTable j).pid
          (fairState.processTable.set j { slot fairState.processTable j with occupied := 0 },
            2 - 1)
        = (fairState.processTable.set j { slot fairState.processTable j with occupied := 0 },
            2 - 1)) ∧
    (occCount (reap 11 (fairState.processTable, 2)).1 ≤ occCount fairState.processTable ∧
      occCount fairState.processTable ≤ occCount (reap 11 (fairState.processTable, 2)).1 + 1 ∧
      (reap 11 (fairState.processTable, 2)).2 = 2 - ((occCount fairState.processTable : Int) -
        (occCount (reap 11 (fairState.processTable, 2)).1 : Int)))) :=
  ⟨by decide, by decide, by decide, by decide,
    reap_idempotent fairState.processTable 2 11 (by decide) (by decide)⟩

/-! ## The worker's termination time -/

/-- C8 (as stated) fails: with spawn clock `(0, 500000000)` and lifetime
`(2147483647, 500000000)` the sum `s + ts = 2147483647` fits in 32 bits, yet the
carry of the nanoseconds is added through `unsigned long long` and stored back
into the `int`, giving `termSeconds = -2147483648`. -/
theorem termTime_carry_wraps :
    ((0 : Int) ≤ 500000000 ∧ (500000000 : Int) < 1000000000) ∧
    (0 : Int) ≤ 2147483647 ∧
    ((-2147483648 : Int) ≤ 0 + 2147483647 ∧ (0 : Int) + 2147483647 ≤ 2147483647) ∧
    Worker.termTime 0 500000000 2147483647 500000000 = (-2147483648, 0) ∧
    ¬ ((Worker.termTime 0 500000000 2147483647 500000000).1 * 1000000000 +
        (Worker.termTime 0 500000000 2147483647 500000000).2
      = (0 * 1000000000 + 500000000) + (2147483647 * 1000000000 + 500000000)) := by
  decide

/-- C8 (amended): for a spawn-time clock `(s, n)` with `n` in `[0, 1e9)` and
lifetime arguments `(ts, tn)` with `ts >= 0` and `tn` in `[0, 1e9)`, when
`s + ts` together with the carry of the nanoseconds fits in a 32-bit `int`
(`-2^31 <= s + ts` and `s + ts + (n + tn) / 1e9 <= 2^31 - 1`), the computed
termination time has `termNano` in `[0, 1e9)` and
`termSeconds * 1e9 + termNano = (s * 1e9 + n) + (ts * 1e9 + tn)`. -/
theorem termTime_normalized (s n ts tn : Int)
    (hn0 : 0 ≤ n) (hn1 : n < 1000000000) (_hts : 0 ≤ ts)
    (htn0 : 0 ≤ tn) (htn1 : tn < 1000000000)
    (hlo : -2147483648 ≤ s + ts) (hhi : s + ts + (n + tn) / 1000000000 ≤ 2147483647) :
    0 ≤ (Worker.termTime s n ts tn).2 ∧ (Worker.termTime s n ts tn).2 < 1000000000 ∧
    (Worker.termTime s n ts tn).1 * 1000000000 + (Worker.termTime s n ts tn).2
      = (s * 1000000000 + n) + (ts * 1000000000 + tn) := by
  unfold Worker.termTime
  simp only [ONE_BILLION, toUInt64, toInt32]
  split
  · rename_i h
    refine ⟨by omega, by omega, ?_⟩
    simp only
    omega
  · rename_i h
    refine ⟨by omega, by omega, ?_⟩
    simp only
    omega

/-- A concrete instance: clock `(12, 750000000)` and lifetime `(3, 500000000)`
give the termination time `(16, 250000000)`. -/
theorem termTime_normalized_witness :
    ((0 : Int) ≤ 750000000 ∧ (750000000 : Int) < 1000000000 ∧ (0 : Int) ≤ 3 ∧
      (0 : Int) ≤ 500000000 ∧ (500000000 : Int) < 1000000000 ∧
      (-2147483648 : Int) ≤ 12 + 3 ∧
      (12 : Int) + 3 + (750000000 + 500000000) / 1000000000 ≤ 2147483647) ∧
    Worker.termTime 12 750000000 3 500000000 = (16, 250000000) ∧
    (0 ≤ (Worker.termTime 12 750000000 3 500000000).2 ∧
      (Worker.termTime 12 750000000 3 500000000).2 < 1000000000 ∧
      (Worker.termTime 12 750000000 3 500000000).1 * 1000000000 +
          (Worker.termTime 12 750000000 3 500000000).2
        = (12 * 1000000000 + 750000000) + (3 * 1000000000 + 500000000)) :=
  ⟨by decide, by decide,
    termTime_normalized 12 750000000 3 500000000 (by decide) (by decide) (by decide)
      (by decide) (by decide) (by decide) (by decide)⟩

/-! ## The admission step -/

/-- The two outcomes of an admission step that does not leave the loop: the
state is unchanged, or the guard held, the scan found the free slot `i`, and
the worker was launched into it. -/
theorem admitPhase_cases {cfg : Config} {inp : Input} {T : Int} {s s3 : State}
    (h : admitPhase cfg inp T s = some s3) :
    s3 = s ∨
    ((s.launchedCount < cfg.totalProcs ∧ s.runningCount < cfg.simulLimit ∧
        toUInt64 (T - s.lastLaunchTime) ≥ toUInt64 (toUInt64 cfg.launchIntervalMs * 1000000)) ∧
      cfg.childTimeLimit ≠ 0 ∧ 0 < inp.forkPid ∧
      ∃ i, findFreeSlot s.processTable MAX_CHILDREN 0 = some i ∧
        s3 = { s with
          processTable := s.processTable.set i
            { occupied := 1, pid := inp.forkPid, startSeconds := s.shmClock.sec
              startNano := s.shmClock.nano, messagesSent := 0 }
          launchedCount := s.launchedCount + 1
          runningCount := s.runningCount + 1
          lastLaunchTime := T }) := by
  unfold admitPhase at h
  split at h
  · rename_i hg
    split at h
    · injection h with h; exact Or.inl h.symm
    · rename_i i hfree
      split at h
      · simp at h
      · rename_i hdraw
        split at h
        · simp at h
        · split at h
          · simp at h
          · rename_i hneg hzero
            injection h with h
            refine Or.inr ⟨hg, ?_, by omega, i, hfree, h.symm⟩
            intro hc
            simp [drawLifetime, hc] at hdraw
  · injection h with h; exact Or.inl h.symm

theorem dispatchPhase_frame {inp : Input} {s s4 : State}
    (h : dispatchPhase inp s = some s4) :
    s4.launchedCount = s.launchedCount ∧ s4.lastLaunchTime = s.lastLaunchTime ∧
      s4.shmClock = s.shmClock := by
  unfold dispatchPhase at h
  split at h
  · split at h
    · simp at h
    · injection h with h; subst h; exact ⟨rfl, rfl, rfl⟩
    · split at h
      · simp at h
      · split at h
        · simp at h
        · split at h <;> (injection h with h; subst h; exact ⟨rfl, rfl, rfl⟩)
  · injection h with h; subst h; exact ⟨rfl, rfl, rfl⟩

theorem occCount_eq_zero {t : List PCB} (h : occCount t = 0) :
    ∀ i, i < MAX_CHILDREN → (slot t i).occupied = 0 := by
  intro i hi
  unfold occCount at h
  rw [List.length_eq_zero, List.filter_eq_nil_iff] at h
  have := h i (List.mem_range.mpr hi)
  simpa using this

theorem reap_all_free (p : Int) (t : List PCB) (rc : Int)
    (h : ∀ i, i < MAX_CHILDREN → (slot t i).occupied = 0) : reap p (t, rc) = (t, rc) := by
  unfold reap
  split
  · exact reapLoop_no_match p t rc MAX_CHILDREN 0
      (fun k _ hk hm => hm.1 (h k (by simpa using hk)))
  · rfl

/-- The clock advance returns whenever its argument is not zero. -/
theorem incrementClock_isSome (c : Clock) (a : Int) (ha : a ≠ 0) :
    ∃ c', incrementClock c a = some c' := by
  unfold incrementClock
  rw [if_neg ha]
  simp only
  split <;> exact ⟨_, rfl⟩

/-- With nothing launched and nothing running, an iteration under
`simulLimit = 0` only advances the clock. -/
theorem mainLoopBody_zero_limit (cfg : Config) (h0 : cfg.simulLimit = 0) (inp : Input)
    (s : State) (hrc : s.runningCount = 0)
    (hfree : ∀ i, i < MAX_CHILDREN → (slot s.processTable i).occupied = 0) :
    ∃ c, mainLoopBody cfg inp s = some { s with shmClock := c } := by
  have hclock : ∃ c, clockPhase s = some { s with shmClock := c } := by
    obtain ⟨c, hc⟩ := incrementClock_isSome s.shmClock
      (if s.runningCount = 0 then 1 else s.runningCount) (by split <;> omega)
    refine ⟨c, ?_⟩
    unfold clockPhase
    rw [hc]
  obtain ⟨c, hc⟩ := hclock
  refine ⟨c, ?_⟩
  unfold mainLoopBody
  rw [hc]
  have hreap : reapPhase inp.pidTerm { s with shmClock := c } = { s with shmClock := c } := by
    unfold reapPhase
    simp only
    rw [reap_all_free inp.pidTerm s.processTable s.runningCount hfree]
  have hadm : admitPhase cfg inp (currentSimTime c) { s with shmClock := c }
      = some { s with shmClock := c } := by
    unfold admitPhase
    rw [if_neg]
    simp only [hrc, h0]
    omega
  have hdis : dispatchPhase inp { s with shmClock := c } = some { s with shmClock := c } := by
    unfold dispatchPhase
    rw [if_neg]
    simp only [hrc]
    omega
  simp only [hreap, hadm, hdis]

/-- C12: with `simulLimit = 0` admission never succeeds.  In every state
reached by the main loop `launchedCount = 0`, `runningCount = 0` and all 20
slots are free; the loop condition is false there exactly when
`totalProcs <= 0`, and it holds in every reachable state when
`totalProcs > 0`; every iteration completes and changes only the clock, so
for `totalProcs > 0` the loop never ends. -/
theorem zero_limit_never_admits (cfg : Config) (h0 : cfg.simulLimit = 0) (s : State)
    (hs : Reachable cfg s) :
    s.launchedCount = 0 ∧ s.runningCount = 0 ∧
    (∀ i, i < MAX_CHILDREN → (slot s.processTable i).occupied = 0) ∧
    (¬ loopCond cfg s ↔ cfg.totalProcs ≤ 0) ∧
    (0 < cfg.totalProcs → loopCond cfg s) ∧
    (∀ inp, ∃ c, mainLoopBody cfg inp s = some { s with shmClock := c }) := by
  have hinv := reachable_inv hs
  have hrc : s.runningCount = 0 := by
    have h1 := hinv.2.1 (by omega)
    have h2 := hinv.1.2.1
    omega
  have hfree : ∀ i, i < MAX_CHILDREN → (slot s.processTable i).occupied = 0 := by
    apply occCount_eq_zero
    have h2 := hinv.1.2.1
    omega
  have hl : s.launchedCount = 0 := by
    clear hinv hrc hfree
    induction hs with
    | init => rfl
    | @iter s0 s1 inp hr _ hb ih =>
      have hinv0 := reachable_inv hr
      have hrc0 : s0.runningCount = 0 := by
        have h1 := hinv0.2.1 (by omega)
        have h2 := hinv0.1.2.1
        omega
      obtain ⟨c, hc⟩ := mainLoopBody_zero_limit cfg h0 inp s0 hrc0
        (occCount_eq_zero (by have h2 := hinv0.1.2.1; omega))
      rw [hc] at hb
      injection hb with hb
      rw [← hb]
      exact ih
  refine ⟨hl, hrc, hfree, ?_, ?_, fun inp => mainLoopBody_zero_limit cfg h0 inp s hrc hfree⟩
  · unfold loopCond; omega
  · unfold loopCond; omega

/-- A concrete instance: the first state of `cfgIdle` (`-s 0 -n 1`) in which
the seconds have advanced. -/
theorem zero_limit_never_admits_witness :
    cfgIdle.simulLimit = 0 ∧ Reachable cfgIdle (idleState 1 0) ∧
    ((idleState 1 0).launchedCount = 0 ∧ (idleState 1 0).runningCount = 0 ∧
    (∀ i, i < MAX_CHILDREN → (slot (idleState 1 0).processTable i).occupied = 0) ∧
    (¬ loopCond cfgIdle (idleState 1 0) ↔ cfgIdle.totalProcs ≤ 0) ∧
    (0 < cfgIdle.totalProcs → loopCond cfgIdle (idleState 1 0)) ∧
    (∀ inp, ∃ c, mainLoopBody cfgIdle inp (idleState 1 0)
      = some { idleState 1 0 with shmClock := c })) :=
  ⟨rfl, idle_reach_second 1 (by decide),
    zero_limit_never_admits cfgIdle rfl (idleState 1 0) (idle_reach_second 1 (by decide))⟩

theorem slot_occupied_lt {t : List PCB} {j : Nat} (h : (slot t j).occupied ≠ 0) :
    j < t.length := by
  by_contra hlt
  apply h
  unfold slot
  rw [List.getD_eq_getElem?_getD, List.getElem?_eq_none (Nat.le_of_not_lt hlt)]
  rfl

/-- C13: the free-slot scan of the admission step returns no slot exactly when
all 20 slots are occupied, and otherwise the lowest index `i` with
`occupied == 0`.  Whenever the admission step launches, it does so into that
slot: the slot becomes `occupied = 1` with the new pid, the current clock as
start time and `messagesSent = 0`, every other slot is unchanged, and
`launchedCount` and `runningCount` each grow by exactly 1; and when the guard
holds, a slot is free, `childTimeLimit` is not zero and `fork` returns a
positive pid, the step does launch. -/
theorem launch_lowest_free_slot (cfg : Config) (inp : Input) (simTime : Int) (s : State)
    (hl : s.processTable.length = MAX_CHILDREN) :
    (findFreeSlot s.processTable MAX_CHILDREN 0 = none ↔
      ∀ i, i < MAX_CHILDREN → (slot s.processTable i).occupied ≠ 0) ∧
    (∀ i, findFreeSlot s.processTable MAX_CHILDREN 0 = some i →
      i < MAX_CHILDREN ∧ (slot s.processTable i).occupied = 0 ∧
      ∀ k, k < i → (slot s.processTable k).occupied ≠ 0) ∧
    (∀ s3, admitPhase cfg inp simTime s = some s3 → s3 ≠ s →
      ∃ i, findFreeSlot s.processTable MAX_CHILDREN 0 = some i ∧
        slot s3.processTable i =
          { occupied := 1, pid := inp.forkPid, startSeconds := s.shmClock.sec
            startNano := s.shmClock.nano, messagesSent := 0 } ∧
        (∀ j, j ≠ i → slot s3.processTable j = slot s.processTable j) ∧
        s3.launchedCount = s.launchedCount + 1 ∧ s3.runningCount = s.runningCount + 1) ∧
    ((s.launchedCount < cfg.totalProcs ∧ s.runningCount < cfg.simulLimit ∧
        toUInt64 (simTime - s.lastLaunchTime)
          ≥ toUInt64 (toUInt64 cfg.launchIntervalMs * 1000000)) →
      (∃ i, findFreeSlot s.processTable MAX_CHILDREN 0 = some i) →
      cfg.childTimeLimit ≠ 0 → 0 < inp.forkPid →
      ∃ s3, admitPhase cfg inp simTime s = some s3 ∧
        s3.launchedCount = s.launchedCount + 1) := by
  refine ⟨?_, ?_, ?_, ?_⟩
  · rw [findFreeSlot_none]
    constructor
    · intro h i hi; exact h i (Nat.zero_le _) (by omega)
    · intro h k _ hk; exact h k (by omega)
  · intro i hi
    obtain ⟨_, h2, h3, h4⟩ := findFreeSlot_some _ _ _ _ hi
    exact ⟨by omega, h3, fun k hk => h4 k (Nat.zero_le _) hk⟩
  · intro s3 h hne
    rcases admitPhase_cases h with h1 | ⟨_, _, _, i, hfree, h1⟩
    · exact absurd h1 hne
    · obtain ⟨_, h2, _, _⟩ := findFreeSlot_some _ _ _ _ hfree
      refine ⟨i, hfree, ?_, ?_, ?_, ?_⟩
      · rw [h1]; simp only; rw [slot_set]; simp; omega
      · intro j hj
        rw [h1]; simp only; rw [slot_set]; simp [Ne.symm hj]
      · rw [h1]
      · rw [h1]
  · intro hg ⟨i, hfree⟩ hc hpid
    unfold admitPhase
    rw [if_pos hg, hfree]
    simp only [drawLifetime, hc, if_false]
    rw [if_neg (by omega), if_neg (by omega)]
    exact ⟨_, rfl, rfl⟩

/-- A concrete instance: under `fullCfg` the admission step launches pid 4242
into slot 1 of `fairState`, whose slots 0 and 3 are occupied. -/
theorem launch_lowest_free_slot_witness :
    fairState.processTable.length = MAX_CHILDREN ∧
    findFreeSlot fairState.processTable MAX_CHILDREN 0 = some 1 ∧
    (admitPhase fullCfg inpContinue (currentSimTime fairState.shmClock) fairState).isSome
      = true ∧
    ((findFreeSlot fairState.processTable MAX_CHILDREN 0 = none ↔
      ∀ i, i < MAX_CHILDREN → (slot fairState.processTable i).occupied ≠ 0) ∧
    (∀ i, findFreeSlot fairState.processTable MAX_CHILDREN 0 = some i →
      i < MAX_CHILDREN ∧ (slot fairState.processTable i).occupied = 0 ∧
      ∀ k, k < i → (slot fairState.processTable k).occupied ≠ 0) ∧
    (∀ s3, admitPhase fullCfg inpContinue (currentSimTime fairState.shmClock) fairState
        = some s3 → s3 ≠ fairState →
      ∃ i, findFreeSlot fairState.processTable MAX_CHILDREN 0 = some i ∧
        slot s3.processTable i =
          { occupied := 1, pid := inpContinue.forkPid, startSeconds := fairState.shmClock.sec
            startNano := fairState.shmClock.nano, messagesSent := 0 } ∧
        (∀ j, j ≠ i → slot s3.processTable j = slot fairState.processTable j) ∧
        s3.launchedCount = fairState.launchedCount + 1 ∧
        s3.runningCount = fairState.runningCount + 1) ∧
    ((fairState.launchedCount < fullCfg.totalProcs ∧
        fairState.runningCount < fullCfg.simulLimit ∧
        toUInt64 (currentSimTime fairState.shmClock - fairState.lastLaunchTime)
          ≥ toUInt64 (toUInt64 fullCfg.launchIntervalMs * 1000000)) →
      (∃ i, findFreeSlot fairState.processTable MAX_CHILDREN 0 = some i) →
      fullCfg.childTimeLimit ≠ 0 → 0 < inpContinue.forkPid →
      ∃ s3, admitPhase fullCfg inpContinue (currentSimTime fairState.shmClock) fairState
          = some s3 ∧
        s3.launchedCount = fairState.launchedCount + 1)) :=
  ⟨by decide, by decide, by decide,
    launch_lowest_free_slot fullCfg inpContinue (currentSimTime fairState.shmClock) fairState
      (by decide)⟩

/-! ## The dispatch step -/

theorem rrScan_found {t : List PCB} {c : Nat} : ∀ (f r j : Nat),
    rrScan t c f r = some (true, j) → (slot t j).occupied ≠ 0 := by
  intro f
  induction f with
  | zero => intro r j h; simp [rrScan] at h
  | succ f ih =>
    intro r j h
    unfold rrScan at h
    split at h
    · rename_i hocc
      injection h with h
      injection h with _ h
      rw [← h]; exact hocc
    · split at h
      · exact ih _ j h
      · simp at h

/-- C14: for a dispatch that services slot `j` (the scan stops at `j` with
found, and both `msgsnd` and `msgrcv` succeed): the cursor afterwards is
`(j + 1) % 20` whatever the reply; slot `j`'s `messagesSent` and
`totalMessagesSent` each grow by exactly 1; on a terminate reply (`0`) slot
`j` becomes free and `runningCount` drops by exactly 1; on any other reply
(continue is `1`) the occupancy of every slot and `runningCount` are
unchanged; the slots other than `j` are untouched in both cases. -/
theorem dispatch_effect (inp : Input) (s : State) (j : Nat)
    (hrun : 0 < s.runningCount)
    (hscan : nextOccupiedFrom s.processTable s.roundRobinIndex = some (true, j))
    (hsnd : inp.sndOk = true) (hrcv : inp.rcvOk = true) :
    ∃ s', dispatchPhase inp s = some s' ∧
      s'.roundRobinIndex = (j + 1) % MAX_CHILDREN ∧
      (slot s'.processTable j).messagesSent = (slot s.processTable j).messagesSent + 1 ∧
      s'.totalMessagesSent = s.totalMessagesSent + 1 ∧
      (∀ i, i ≠ j → slot s'.processTable i = slot s.processTable i) ∧
      (inp.reply = 0 →
        (slot s.processTable j).occupied ≠ 0 ∧ (slot s'.processTable j).occupied = 0 ∧
        s'.runningCount = s.runningCount - 1) ∧
      (inp.reply ≠ 0 →
        s'.runningCount = s.runningCount ∧
        ∀ i, (slot s'.processTable i).occupied = (slot s.processTable i).occupied) := by
  have hocc : (slot s.processTable j).occupied ≠ 0 := rrScan_found _ _ _ hscan
  have hj : j < s.processTable.length := slot_occupied_lt hocc
  unfold dispatchPhase
  rw [if_pos hrun, hscan]
  simp only [hsnd, hrcv]
  by_cases hrep : inp.reply = 0
  · refine ⟨_, by simp only [hrep]; rfl, rfl, ?_, rfl, ?_, ?_, ?_⟩
    · simp only; rw [slot_set, slot_set]; simp [hj]
    · intro i hi
      simp only; rw [slot_set, slot_set]; simp [Ne.symm hi]
      rw [slot_set]; simp [Ne.symm hi]
    · intro _
      refine ⟨hocc, ?_, rfl⟩
      simp only; rw [slot_set]; simp [hj]
    · intro h; exact absurd hrep h
  · refine ⟨_, by simp only [hrep]; rfl, rfl, ?_, rfl, ?_, ?_, ?_⟩
    · simp only; rw [slot_set]; simp [hj]
    · intro i hi
      simp only; rw [slot_set]; simp [Ne.symm hi]
    · intro h; exact absurd h hrep
    · intro _
      refine ⟨rfl, fun i => ?_⟩
      simp only; rw [slot_set]
      split
      · rename_i h; rw [← h.1]
      · rfl

/-- A concrete instance: from cursor 2 the dispatch over `fairState` services
slot 3, and the worker there replies terminate. -/
theorem dispatch_effect_witness :
    0 < fairState.runningCount ∧
    nextOccupiedFrom fairState.processTable fairState.roundRobinIndex = some (true, 3) ∧
    inpTerminate.sndOk = true ∧ inpTerminate.rcvOk = true ∧
    ∃ s', dispatchPhase inpTerminate fairState = some s' ∧
      s'.roundRobinIndex = (3 + 1) % MAX_CHILDREN ∧
      (slot s'.processTable 3).messagesSent = (slot fairState.processTable 3).messagesSent + 1 ∧
      s'.totalMessagesSent = fairState.totalMessagesSent + 1 ∧
      (∀ i, i ≠ 3 → slot s'.processTable i = slot fairState.processTable i) ∧
      (inpTerminate.reply = 0 →
        (slot fairState.processTable 3).occupied ≠ 0 ∧ (slot s'.processTable 3).occupied = 0 ∧
        s'.runningCount = fairState.runningCount - 1) ∧
      (inpTerminate.reply ≠ 0 →
        s'.runningCount = fairState.runningCount ∧
        ∀ i, (slot s'.processTable i).occupied = (slot fairState.processTable i).occupied) :=
  ⟨by decide, by decide, rfl, rfl,
    dispatch_effect inpTerminate fairState 3 (by decide) (by decide) rfl rfl⟩

/-! ## The lifetime handed to a worker -/

/-- C16: for `childTimeLimit >= 1` and draws `r1`, `r2` of `rand()` (an `int`,
so `r2 <= 2147483647`), the lifetime is computed without a fault, its seconds
are `(r1 mod childTimeLimit) + 1` and lie in `[1, childTimeLimit]`, and its
nanoseconds are `r2 mod 1,000,000,000` and lie in `[0, 1,000,000,000)`. -/
theorem lifetime_in_range (childTimeLimit : Int) (r1 r2 : Nat) (hc : 1 ≤ childTimeLimit)
    (hr2 : r2 ≤ 2147483647) :
    ∃ sec nano, drawLifetime childTimeLimit r1 r2 = some (sec, nano) ∧
      sec = (r1 : Int) % childTimeLimit + 1 ∧ 1 ≤ sec ∧ sec ≤ childTimeLimit ∧
      nano = (r2 : Int) % 1000000000 ∧ 0 ≤ nano ∧ nano < 1000000000 := by
  have htm : Int.tmod (r1 : Int) childTimeLimit = (r1 : Int) % childTimeLimit :=
    Int.tmod_eq_emod (Int.ofNat_nonneg _) (by omega)
  have h0 : 0 ≤ (r1 : Int) % childTimeLimit := Int.emod_nonneg _ (by omega)
  have h1 : (r1 : Int) % childTimeLimit < childTimeLimit := Int.emod_lt_of_pos _ (by omega)
  refine ⟨(r1 : Int) % childTimeLimit + 1, (r2 : Int) % 1000000000, ?_, rfl, by omega,
    by omega, rfl, by omega, by omega⟩
  unfold drawLifetime
  rw [if_neg (by omega), htm]
  simp only [toUInt64, toInt32, ONE_BILLION]
  have hn : ((r2 : Int) % 18446744073709551616 % 1000000000 + 2147483648) % 4294967296
      - 2147483648 = (r2 : Int) % 1000000000 := by omega
  rw [hn]

/-- A concrete instance: `childTimeLimit = 5` and the draws 1804289383 and
846930886 give the lifetime `(4, 846930886)`. -/
theorem lifetime_in_range_witness :
    (1 : Int) ≤ 5 ∧ 846930886 ≤ 2147483647 ∧
    drawLifetime 5 1804289383 846930886 = some (4, 846930886) ∧
    ∃ sec nano, drawLifetime 5 1804289383 846930886 = some (sec, nano) ∧
      sec = ((1804289383 : Nat) : Int) % 5 + 1 ∧ 1 ≤ sec ∧ sec ≤ 5 ∧
      nano = ((846930886 : Nat) : Int) % 1000000000 ∧ 0 ≤ nano ∧ nano < 1000000000 :=
  ⟨by decide, by decide, by decide,
    lifetime_in_range 5 1804289383 846930886 (by decide) (by decide)⟩

/-! ## The worker loop -/

theorem reply_zero_iff_exceeds (ts tn : Int) (w : Worker.Wake) :
    Worker.reply w.sec w.nano ts tn = 0 ↔ Worker.exceeds ts tn w = true := by
  unfold Worker.reply Worker.exceeds
  split <;> simp_all

theorem reply_zero_or_one (sec nano ts tn : Int) :
    Worker.reply sec nano ts tn = 0 ∨ Worker.reply sec nano ts tn = 1 := by
  unfold Worker.reply
  split
  · exact Or.inl rfl
  · exact Or.inr rfl

/-- C17: the replies of the worker loop.  For every termination time and every
sequence of wakes: each reply is terminate (`0`) or continue (`1`); a
terminate reply is the last reply; there is at most one terminate reply (so no
continue follows a terminate).  When no `msgrcv` or `msgsnd` fails, the reply
sequence is continue for every wake before the first one whose clock reading
strictly exceeds the termination time, terminate at that wake if there is one,
and nothing afterwards. -/
theorem worker_reply_sequence (ts tn : Int) (ws : List Worker.Wake) :
    (∀ x ∈ Worker.run ts tn ws, x = 0 ∨ x = 1) ∧
    (∀ i, (Worker.run ts tn ws)[i]? = some 0 → i + 1 = (Worker.run ts tn ws).length) ∧
    (Worker.run ts tn ws).count 0 ≤ 1 ∧
    ((∀ w ∈ ws, w.rcvOk = true ∧ w.sndOk = true) →
      Worker.run ts tn ws =
        List.replicate (ws.takeWhile (fun w => !Worker.exceeds ts tn w)).length 1 ++
          (if ws.any (Worker.exceeds ts tn) = true then [0] else [])) := by
  induction ws with
  | nil => simp [Worker.run]
  | cons w rest ih =>
    obtain ⟨ih1, ih2, ih3, ih4⟩ := ih
    by_cases hr : w.rcvOk = false
    · have hrun : Worker.run ts tn (w :: rest) = [] := by simp [Worker.run, hr]
      rw [hrun]
      refine ⟨by simp, by simp, by simp, fun h => ?_⟩
      have := (h w (List.mem_cons_self _ _)).1
      rw [hr] at this; simp at this
    · by_cases hs : w.sndOk = false
      · have hrun : Worker.run ts tn (w :: rest) = [] := by simp [Worker.run, hs]
        rw [hrun]
        refine ⟨by simp, by simp, by simp, fun h => ?_⟩
        have := (h w (List.mem_cons_self _ _)).2
        rw [hs] at this; simp at this
      · by_cases h0 : Worker.reply w.sec w.nano ts tn = 0
        · have hrun : Worker.run ts tn (w :: rest) = [0] := by
            simp [Worker.run, hr, hs, h0]
          have hex := (reply_zero_iff_exceeds ts tn w).mp h0
          rw [hrun]
          refine ⟨by simp, ?_, by simp, fun _ => ?_⟩
          · intro i hi
            cases i with
            | zero => rfl
            | succ i => simp at hi
          · simp [hex]
        · have h1 : Worker.reply w.sec w.nano ts tn = 1 := by
            rcases reply_zero_or_one w.sec w.nano ts tn with h | h
            · exact absurd h h0
            · exact h
          have hrun : Worker.run ts tn (w :: rest) = 1 :: Worker.run ts tn rest := by
            simp [Worker.run, hr, hs, h1]
          have hex : Worker.exceeds ts tn w = false := by
            cases hx : Worker.exceeds ts tn w with
            | false => rfl
            | true => exact absurd ((reply_zero_iff_exceeds ts tn w).mpr hx) h0
          rw [hrun]
          refine ⟨?_, ?_, ?_, fun h => ?_⟩
          · intro x hx
            rcases List.mem_cons.mp hx with hx | hx
            · exact Or.inr hx
            · exact ih1 x hx
          · intro i hi
            cases i with
            | zero => simp at hi
            | succ i =>
              simp only [List.getElem?_cons_succ] at hi
              simp only [List.length_cons]
              rw [ih2 i hi]
          · rw [List.count_cons]
            simpa using ih3
          · rw [ih4 (fun x hx => h x (List.mem_cons_of_mem _ hx))]
            simp [hex, List.replicate_succ]

/-- A concrete instance: on `demoWakes` the replies are continue, continue,
terminate, and the fourth wake is never answered. -/
theorem worker_reply_sequence_witness :
    Worker.run 1 250000000 Worker.demoWakes = [1, 1, 0] ∧
    (∀ w ∈ Worker.demoWakes, w.rcvOk = true ∧ w.sndOk = true) ∧
    ((∀ x ∈ Worker.run 1 250000000 Worker.demoWakes, x = 0 ∨ x = 1) ∧
    (∀ i, (Worker.run 1 250000000 Worker.demoWakes)[i]? = some 0 →
      i + 1 = (Worker.run 1 250000000 Worker.demoWakes).length) ∧
    (Worker.run 1 250000000 Worker.demoWakes).count 0 ≤ 1 ∧
    ((∀ w ∈ Worker.demoWakes, w.rcvOk = true ∧ w.sndOk = true) →
      Worker.run 1 250000000 Worker.demoWakes =
        List.replicate
          (Worker.demoWakes.takeWhile (fun w => !Worker.exceeds 1 250000000 w)).length 1 ++
          (if Worker.demoWakes.any (Worker.exceeds 1 250000000) = true then [0] else []))) :=
  ⟨by decide, by decide, worker_reply_sequence 1 250000000 Worker.demoWakes⟩

/-! ## Occupancy flags, the running count and the cursor -/

theorem binaryOcc_set {t : List PCB} (h : BinaryOcc t) (i : Nat) (a : PCB)
    (ha : a.occupied = 0 ∨ a.occupied = 1) : BinaryOcc (t.set i a) := by
  intro j
  rw [slot_set]
  split
  · exact ha
  · exact h j

theorem binaryOcc_init : BinaryOcc initState.processTable := by
  intro i
  left
  unfold slot initState
  simp only [List.getD_eq_getElem?_getD, List.getElem?_replicate]
  split <;> rfl

theorem reapLoop_binaryOcc (p : Int) : ∀ (n i : Nat) (t : List PCB) (rc : Int),
    BinaryOcc t → BinaryOcc (reapLoop p n i (t, rc)).1 := by
  intro n
  induction n with
  | zero => intro i t rc h; exact h
  | succ n ih =>
    intro i t rc h
    unfold reapLoop
    split
    · exact binaryOcc_set h i _ (Or.inl rfl)
    · exact ih (i + 1) t rc h

theorem reapPhase_binaryOcc (p : Int) {s : State} (h : BinaryOcc s.processTable) :
    BinaryOcc (reapPhase p s).processTable := by
  unfold reapPhase reap
  simp only
  split
  · exact reapLoop_binaryOcc p _ _ _ _ h
  · exact h

theorem admitPhase_binaryOcc {cfg : Config} {inp : Input} {T : Int} {s s3 : State}
    (h : BinaryOcc s.processTable) (ha : admitPhase cfg inp T s = some s3) :
    BinaryOcc s3.processTable := by
  rcases admitPhase_cases ha with h1 | ⟨_, _, _, i, _, h1⟩
  · rw [h1]; exact h
  · rw [h1]; exact binaryOcc_set h i _ (Or.inr rfl)

theorem dispatchPhase_binaryOcc {inp : Input} {s s4 : State}
    (h : BinaryOcc s.processTable) (hd : dispatchPhase inp s = some s4) :
    BinaryOcc s4.processTable := by
  unfold dispatchPhase at hd
  split at hd
  · split at hd
    · simp at hd
    · injection hd with hd; subst hd; exact h
    · rename_i rr _
      split at hd
      · simp at hd
      · split at hd
        · simp at hd
        · have hsent : BinaryOcc (s.processTable.set rr
              { slot s.processTable rr with
                messagesSent := (slot s.processTable rr).messagesSent + 1 }) :=
            binaryOcc_set h rr _ (h rr)
          split at hd
          · injection hd with hd; subst hd
            exact binaryOcc_set hsent rr _ (Or.inl rfl)
          · injection hd with hd; subst hd
            exact hsent
  · injection hd with hd; subst hd; exact h

theorem reachable_binaryOcc {cfg : Config} {s : State} (h : Reachable cfg s) :
    BinaryOcc s.processTable := by
  induction h with
  | init => exact binaryOcc_init
  | iter inp _ _ hb ih =>
    unfold mainLoopBody at hb
    split at hb
    · simp at hb
    · rename_i s1 h1
      split at hb
      · simp at hb
      · rename_i s3 h3
        have ht := (clockPhase_frame h1).1
        exact dispatchPhase_binaryOcc
          (admitPhase_binaryOcc (reapPhase_binaryOcc _ (by rw [ht]; exact ih)) h3) hb

theorem visited_binaryOcc {cfg : Config} {s : State} (h : Visited cfg s) :
    BinaryOcc s.processTable := by
  cases h with
  | head hr => exact reachable_binaryOcc hr
  | afterClock hr _ h1 => rw [(clockPhase_frame h1).1]; exact reachable_binaryOcc hr
  | afterReap p hr _ h1 =>
    exact reapPhase_binaryOcc p (by rw [(clockPhase_frame h1).1]; exact reachable_binaryOcc hr)
  | afterAdmit inp hr _ h1 h3 =>
    exact admitPhase_binaryOcc
      (reapPhase_binaryOcc _ (by rw [(clockPhase_frame h1).1]; exact reachable_binaryOcc hr)) h3

theorem occOneCount_eq_occCount {t : List PCB} (h : BinaryOcc t) :
    occOneCount t = occCount t := by
  unfold occOneCount occCount
  congr 1
  apply List.filter_congr
  intro i _
  rcases h i with h0 | h1
  · simp [h0]
  · simp [h1]

/-- C18: at every program point of the main loop (loop head, and after the
clock advance, the reap and the admission step), for any reaped pids, fork
results and replies, every `occupied` flag is 0 or 1 and `runningCount` is the
number of table slots with `occupied == 1`; so `runningCount` is never
negative; and `launchedCount` never exceeds `totalProcs` when
`totalProcs >= 0`. -/
theorem running_counts_occupied (cfg : Config) (s : State) (hs : Visited cfg s) :
    BinaryOcc s.processTable ∧
    s.runningCount = (occOneCount s.processTable : Int) ∧
    0 ≤ s.runningCount ∧
    (0 ≤ cfg.totalProcs → s.launchedCount ≤ cfg.totalProcs) := by
  obtain ⟨⟨_, hc, _⟩, _, hlaunch⟩ := visited_inv hs
  have hb := visited_binaryOcc hs
  refine ⟨hb, ?_, ?_, hlaunch⟩
  · rw [occOneCount_eq_occCount hb]; exact hc
  · rw [hc]; exact Int.ofNat_nonneg _

/-- A concrete instance: the state after the first iteration of `demoCfg`. -/
theorem running_counts_occupied_witness :
    Visited demoCfg demoState1 ∧ occOneCount demoState1.processTable = 1 ∧
    (BinaryOcc demoState1.processTable ∧
    demoState1.runningCount = (occOneCount demoState1.processTable : Int) ∧
    0 ≤ demoState1.runningCount ∧
    (0 ≤ demoCfg.totalProcs → demoState1.launchedCount ≤ demoCfg.totalProcs)) :=
  ⟨Visited.head demoState1_reachable, by decide,
    running_counts_occupied demoCfg demoState1 (Visited.head demoState1_reachable)⟩

/-- C19: at every program point of the main loop the table has its 20 entries
and the cursor `roundRobinIndex` is in `[0, 20)`; and whenever
`runningCount > 0` there (in particular where the dispatch step is entered)
the scan stops with found at an occupied slot `j < 20`, the message handed to
`msgsnd` has `mtype` equal to the pid of that slot and `mtext = 1`, and the
dispatch step completes as soon as `msgsnd` and `msgrcv` succeed. -/
theorem cursor_in_bounds_and_found (cfg : Config) (s : State) (hs : Visited cfg s) :
    s.processTable.length = MAX_CHILDREN ∧ s.roundRobinIndex < MAX_CHILDREN ∧
    (0 < s.runningCount →
      ∃ j, j < MAX_CHILDREN ∧
        nextOccupiedFrom s.processTable s.roundRobinIndex = some (true, j) ∧
        (slot s.processTable j).occupied ≠ 0 ∧
        wakeMessage s = some ((slot s.processTable j).pid, 1) ∧
        ∀ inp : Input, inp.sndOk = true → inp.rcvOk = true →
          ∃ s', dispatchPhase inp s = some s' ∧
            (slot s'.processTable j).messagesSent
              = (slot s.processTable j).messagesSent + 1) := by
  obtain ⟨⟨hl, hc, hr⟩, _, _⟩ := visited_inv hs
  refine ⟨hl, hr, fun hrun => ?_⟩
  rcases nextOccupiedFrom_cases s.processTable s.roundRobinIndex hr with
    ⟨j, hj, hj20, hocc⟩ | ⟨_, hall⟩
  · refine ⟨j, hj20, hj, hocc, ?_, fun inp hsnd hrcv => ?_⟩
    · unfold wakeMessage
      rw [if_pos hrun, hj]
    · have hjl : j < s.processTable.length := slot_occupied_lt hocc
      unfold dispatchPhase
      rw [if_pos hrun, hj]
      simp only [hsnd, hrcv]
      by_cases hrep : inp.reply = 0
      · refine ⟨_, by simp only [hrep]; rfl, ?_⟩
        simp only; rw [slot_set, slot_set]; simp [hjl]
      · refine ⟨_, by simp only [hrep]; rfl, ?_⟩
        simp only; rw [slot_set]; simp [hjl]
  · exfalso
    have : occCount s.processTable = 0 := by
      unfold occCount
      rw [List.length_eq_zero, List.filter_eq_nil_iff]
      intro i hi
      have := hall i (List.mem_range.mp hi)
      simp [this]
    omega

/-- A concrete instance: the state after the first iteration of `demoCfg`,
with the cursor at 1 and the only worker in slot 0: the scan wraps around and
the wake message goes to pid 4242. -/
theorem cursor_in_bounds_and_found_witness :
    Visited demoCfg demoState1 ∧ wakeMessage demoState1 = some (4242, 1) ∧
    (demoState1.processTable.length = MAX_CHILDREN ∧
    demoState1.roundRobinIndex < MAX_CHILDREN ∧
    (0 < demoState1.runningCount →
      ∃ j, j < MAX_CHILDREN ∧
        nextOccupiedFrom demoState1.processTable demoState1.roundRobinIndex = some (true, j) ∧
        (slot demoState1.processTable j).occupied ≠ 0 ∧
        wakeMessage demoState1 = some ((slot demoState1.processTable j).pid, 1) ∧
        ∀ inp : Input, inp.sndOk = true → inp.rcvOk = true →
          ∃ s', dispatchPhase inp demoState1 = some s' ∧
            (slot s'.processTable j).messagesSent
              = (slot demoState1.processTable j).messagesSent + 1)) :=
  ⟨Visited.head demoState1_reachable, by decide,
    cursor_in_bounds_and_found demoCfg demoState1 (Visited.head demoState1_reachable)⟩

/-! ## The launch interval -/

theorem currentSimTime_range (c : Clock) :
    0 ≤ currentSimTime c ∧ currentSimTime c < 18446744073709551616 := by
  unfold currentSimTime toUInt64
  constructor <;> omega

/-- The launch times of a run, preceded by the last launch time of the state
it starts from, are spaced by at least the launch interval. -/
theorem launchTimes_chain (cfg : Config) (h0 : 0 ≤ cfg.launchIntervalMs)
    (h1 : cfg.launchIntervalMs ≤ 2147483647) : ∀ (inps : List Input) (s : State),
    0 ≤ s.lastLaunchTime →
    List.Chain (fun a b => toUInt64 (b - a) ≥ cfg.launchIntervalMs * 1000000 ∧
        (a ≤ b → b - a ≥ cfg.launchIntervalMs * 1000000))
      s.lastLaunchTime (launchTimes cfg inps s) := by
  intro inps
  induction inps with
  | nil => intro s _; exact List.Chain.nil
  | cons inp rest ih =>
    intro s hpos
    unfold launchTimes
    split
    · split
      · exact List.Chain.nil
      · rename_i s1 hs1
        obtain ⟨_, _, hlc1, _, hll1, _⟩ := clockPhase_frame hs1
        split
        · exact List.Chain.nil
        · rename_i s3 hs3
          have hT := currentSimTime_range s1.shmClock
          rcases admitPhase_cases hs3 with h3 | ⟨⟨_, _, hg⟩, _, _, i, _, h3⟩
          · have hlc3 : s3.launchedCount = s.launchedCount := by rw [h3]; exact hlc1
            have hll3 : s3.lastLaunchTime = s.lastLaunchTime := by rw [h3]; exact hll1
            rw [if_pos hlc3, List.nil_append]
            split
            · exact List.Chain.nil
            · rename_i s4 hs4
              have hll4 := (dispatchPhase_frame hs4).2.1
              have := ih s4 (by rw [hll4, hll3]; exact hpos)
              rw [hll4, hll3] at this
              exact this
          · have hlc3 : s3.launchedCount ≠ s.launchedCount := by
              rw [h3]; simp only
              have : (reapPhase inp.pidTerm s1).launchedCount = s1.launchedCount := rfl
              omega
            have hll3 : s3.lastLaunchTime = currentSimTime s1.shmClock := by rw [h3]
            have hlr : (reapPhase inp.pidTerm s1).lastLaunchTime = s.lastLaunchTime := hll1
            rw [hlr] at hg
            have hms : toUInt64 (toUInt64 cfg.launchIntervalMs * 1000000)
                = cfg.launchIntervalMs * 1000000 := by
              unfold toUInt64; omega
            rw [hms] at hg
            rw [if_neg hlc3, List.singleton_append]
            refine List.Chain.cons ⟨hg, fun hle => ?_⟩ ?_
            · have : toUInt64 (currentSimTime s1.shmClock - s.lastLaunchTime)
                  = currentSimTime s1.shmClock - s.lastLaunchTime := by
                unfold toUInt64; omega
              omega
            · split
              · exact List.Chain.nil
              · rename_i s4 hs4
                have hll4 := (dispatchPhase_frame hs4).2.1
                have := ih s4 (by rw [hll4, hll3]; exact hT.1)
                rw [hll4, hll3] at this
                exact this
    · exact List.Chain.nil

theorem admitPhase_last {cfg : Config} {inp : Input} {T : Int} {s s3 : State}
    (h : admitPhase cfg inp T s = some s3) :
    s3.shmClock = s.shmClock ∧
    ((s3.launchedCount = s.launchedCount ∧ s3.lastLaunchTime = s.lastLaunchTime) ∨
      (s3.launchedCount = s.launchedCount + 1 ∧ s3.lastLaunchTime = T ∧
        toUInt64 (T - s.lastLaunchTime)
          ≥ toUInt64 (toUInt64 cfg.launchIntervalMs * 1000000))) := by
  rcases admitPhase_cases h with h3 | ⟨⟨_, _, hg⟩, _, _, i, _, h3⟩
  · rw [h3]; exact ⟨rfl, Or.inl ⟨rfl, rfl⟩⟩
  · rw [h3]; exact ⟨rfl, Or.inr ⟨rfl, rfl, hg⟩⟩

/-- The admission step of an iteration entered after fewer than 8,589,934,591
iterations: `currentSimTime` is the clock total, it is not earlier than the
last launch, and a launch requires the plain difference of the two to reach
the launch interval. -/
theorem admit_within (cfg : Config) {n : Nat} {s s1 s3 : State} {inp : Input}
    (hrc : 0 ≤ s.runningCount) (hw : ClockWithin n s.shmClock) (hl : LastLaunchOK s)
    (hn : n < 8589934591) (h1 : clockPhase s = some s1)
    (h3 : admitPhase cfg inp (currentSimTime s1.shmClock) (reapPhase inp.pidTerm s1)
      = some s3) :
    ClockWithin (n + 1) s3.shmClock ∧ LastLaunchOK s3 ∧
    ((s3.launchedCount = s.launchedCount ∧ s3.lastLaunchTime = s.lastLaunchTime) ∨
      (s3.launchedCount ≠ s.launchedCount ∧
        s3.lastLaunchTime = currentSimTime s1.shmClock ∧
        currentSimTime s1.shmClock - s.lastLaunchTime
          ≥ toUInt64 (toUInt64 cfg.launchIntervalMs * 1000000))) := by
  obtain ⟨t1, ht1, hw1, htot, _, _, _⟩ := clockPhase_within hrc hw hn
  rw [h1] at ht1
  injection ht1 with ht1
  subst ht1
  obtain ⟨_, _, hlc1, _, hll1, _⟩ := clockPhase_frame h1
  have hd0 : 0 ≤ (250000000 : Int) / max s.runningCount 1 :=
    Int.ediv_nonneg (by decide) (by omega)
  have hT := currentSimTime_within hw1 (by omega)
  have hTr := currentSimTime_range s1.shmClock
  obtain ⟨hclk, hcase⟩ := admitPhase_last h3
  have hclk' : s3.shmClock = s1.shmClock := hclk
  have hlr : (reapPhase inp.pidTerm s1).lastLaunchTime = s.lastLaunchTime := hll1
  have hcr : (reapPhase inp.pidTerm s1).launchedCount = s.launchedCount := hlc1
  obtain ⟨hl0, hl1⟩ := hl
  rw [hlr, hcr] at hcase
  refine ⟨by rw [hclk']; exact hw1, ?_, ?_⟩
  · unfold LastLaunchOK
    rw [hclk']
    rcases hcase with ⟨_, hsame⟩ | ⟨_, hnew, _⟩
    · rw [hsame]; omega
    · rw [hnew, hT]; omega
  · rcases hcase with ⟨hc, hsame⟩ | ⟨hc, hnew, hg⟩
    · exact Or.inl ⟨hc, hsame⟩
    · refine Or.inr ⟨by omega, hnew, ?_⟩
      have hplain : toUInt64 (currentSimTime s1.shmClock - s.lastLaunchTime)
          = currentSimTime s1.shmClock - s.lastLaunchTime := by
        unfold toUInt64; omega
      rw [hplain] at hg
      exact hg

theorem reachableIn_lastLaunchOK {cfg : Config} {n : Nat} {s : State}
    (h : ReachableIn cfg n s) : n ≤ 8589934591 → LastLaunchOK s := by
  induction h with
  | init => intro _; unfold LastLaunchOK; decide
  | @iter n s0 s' inp hr _ hb ih =>
    intro hn
    have hl := ih (by omega)
    have hw := reachableIn_clockWithin hr (by omega)
    have hrc : 0 ≤ s0.runningCount := by
      rw [(reachable_inv (reachableIn_reachable hr)).1.2.1]; exact Int.ofNat_nonneg _
    unfold mainLoopBody at hb
    split at hb
    · simp at hb
    · rename_i s1 h1
      split at hb
      · simp at hb
      · rename_i s3 h3
        obtain ⟨_, hl3, _⟩ := admit_within cfg hrc hw hl (by omega) h1 h3
        obtain ⟨_, hll, hclk⟩ := dispatchPhase_frame hb
        unfold LastLaunchOK at *
        rw [hll, hclk]
        exact hl3

/-- In a run that stays below 8,589,934,591 iterations the launch times,
preceded by the last launch time of the state it starts from, are spaced by
at least the launch interval as plain integers. -/
theorem launchTimes_chain_plain (cfg : Config) (h0 : 0 ≤ cfg.launchIntervalMs)
    (h1 : cfg.launchIntervalMs ≤ 2147483647) : ∀ (inps : List Input) (n : Nat) (s : State),
    Inv cfg s → ClockWithin n s.shmClock → LastLaunchOK s →
    n + inps.length ≤ 8589934591 →
    List.Chain (fun a b => b - a ≥ cfg.launchIntervalMs * 1000000)
      s.lastLaunchTime (launchTimes cfg inps s) := by
  have hms : toUInt64 (toUInt64 cfg.launchIntervalMs * 1000000)
      = cfg.launchIntervalMs * 1000000 := by
    unfold toUInt64; omega
  intro inps
  induction inps with
  | nil => intro n s _ _ _ _; exact List.Chain.nil
  | cons inp rest ih =>
    intro n s hinv hw hl hlen
    have hn : n < 8589934591 := by
      simp only [List.length_cons] at hlen; omega
    have hrc : 0 ≤ s.runningCount := by
      rw [hinv.1.2.1]; exact Int.ofNat_nonneg _
    unfold launchTimes
    split
    · split
      · exact List.Chain.nil
      · rename_i s1 hs1
        split
        · exact List.Chain.nil
        · rename_i s3 hs3
          obtain ⟨hw3, hl3, hcase⟩ := admit_within cfg hrc hw hl hn hs1 hs3
          have hinv3 : Inv cfg s3 :=
            admitPhase_inv (reapPhase_inv _ (clockPhase_inv hinv hs1)) hs3
          have hrest : ∀ s4, dispatchPhase inp s3 = some s4 →
              List.Chain (fun a b => b - a ≥ cfg.launchIntervalMs * 1000000)
                s3.lastLaunchTime (launchTimes cfg rest s4) := by
            intro s4 hs4
            obtain ⟨_, hll4, hclk4⟩ := dispatchPhase_frame hs4
            have := ih (n + 1) s4 (dispatchPhase_inv hinv3 hs4)
              (by rw [hclk4]; exact hw3)
              (by unfold LastLaunchOK at *; rw [hll4, hclk4]; exact hl3)
              (by simp only [List.length_cons] at hlen; omega)
            rw [hll4] at this
            exact this
          rcases hcase with ⟨hc, hsame⟩ | ⟨hc, hnew, hg⟩
          · rw [if_pos hc, List.nil_append]
            split
            · exact List.Chain.nil
            · rename_i s4 hs4
              have := hrest s4 hs4
              rw [hsame] at this
              exact this
          · rw [if_neg hc, List.singleton_append]
            rw [hms] at hg
            refine List.Chain.cons hg ?_
            split
            · exact List.Chain.nil
            · rename_i s4 hs4
              have := hrest s4 hs4
              rw [hnew] at this
              exact this
    · exact List.Chain.nil

/-- C11: launch-interval admission.  For `launchIntervalMs >= 0` (an `int`):
the admission step launches only if the difference
`currentSimTime - lastLaunchTime`, which the code computes in unsigned 64-bit
arithmetic, is at least `launchIntervalMs * 1,000,000`, and a launch sets
`lastLaunchTime` to `currentSimTime`; `lastLaunchTime` is initially 0.  In
every iteration entered after fewer than 8,589,934,591 completed iterations
(far beyond any run the watchdog `alarm(60)` allows) that difference is the
plain integer difference; hence in every run of at most 8,589,934,591
iterations from the initial state the simulated time of the first launch is at
least `launchIntervalMs * 1,000,000` and the simulated times of any two
consecutive launches differ by at least `launchIntervalMs * 1,000,000` ns as
plain integers.  In runs of any length the same holds of the unsigned 64-bit
difference. -/
theorem launch_interval (cfg : Config) (h0 : 0 ≤ cfg.launchIntervalMs)
    (h1 : cfg.launchIntervalMs ≤ 2147483647) :
    (∀ (inp : Input) (simTime : Int) (s s3 : State),
      admitPhase cfg inp simTime s = some s3 → s3.launchedCount ≠ s.launchedCount →
      toUInt64 (simTime - s.lastLaunchTime) ≥ cfg.launchIntervalMs * 1000000 ∧
      s3.lastLaunchTime = simTime) ∧
    initState.lastLaunchTime = 0 ∧
    (∀ (n : Nat) (s s1 s3 : State) (inp : Input), ReachableIn cfg n s → n < 8589934591 →
      clockPhase s = some s1 →
      admitPhase cfg inp (currentSimTime s1.shmClock) (reapPhase inp.pidTerm s1) = some s3 →
      s3.launchedCount ≠ s.launchedCount →
      currentSimTime s1.shmClock - s.lastLaunchTime ≥ cfg.launchIntervalMs * 1000000 ∧
      s3.lastLaunchTime = currentSimTime s1.shmClock) ∧
    (∀ inps : List Input, inps.length ≤ 8589934591 →
      List.Chain (fun a b => b - a ≥ cfg.launchIntervalMs * 1000000)
        0 (launchTimes cfg inps initState)) ∧
    (∀ inps : List Input,
      List.Chain (fun a b => toUInt64 (b - a) ≥ cfg.launchIntervalMs * 1000000)
        0 (launchTimes cfg inps initState)) := by
  have hms : toUInt64 (toUInt64 cfg.launchIntervalMs * 1000000)
      = cfg.launchIntervalMs * 1000000 := by
    unfold toUInt64; omega
  refine ⟨?_, rfl, ?_, fun inps hlen => ?_, fun inps => ?_⟩
  · intro inp T s s3 h hne
    rcases admitPhase_cases h with h3 | ⟨⟨_, _, hg⟩, _, _, i, _, h3⟩
    · rw [h3] at hne; exact absurd rfl hne
    · rw [hms] at hg
      exact ⟨hg, by rw [h3]⟩
  · intro n s s1 s3 inp hs hn hs1 hs3 hne
    have hrc : 0 ≤ s.runningCount := by
      rw [(reachable_inv (reachableIn_reachable hs)).1.2.1]; exact Int.ofNat_nonneg _
    obtain ⟨_, _, hcase⟩ := admit_within cfg hrc (reachableIn_clockWithin hs (by omega))
      (reachableIn_lastLaunchOK hs (by omega)) hn hs1 hs3
    rcases hcase with ⟨hc, _⟩ | ⟨_, hnew, hg⟩
    · exact absurd hc hne
    · rw [hms] at hg
      exact ⟨hg, hnew⟩
  · have := launchTimes_chain_plain cfg h0 h1 inps 0 initState (initState_inv cfg)
      (by unfold ClockWithin; decide) (by unfold LastLaunchOK; decide) (by omega)
    exact this
  · exact (launchTimes_chain cfg h0 h1 inps initState (le_refl _)).imp (fun _ _ h => h.1)

/-- A concrete instance: under `intervalCfg` (300 ms) a run of eight iterations
launches at the simulated times 500000000, 1000000000 and 1375000000; the
iterations at 250000000, 750000000, 1125000000 and 1250000000 do not launch. -/
theorem launch_interval_witness :
    (0 : Int) ≤ intervalCfg.launchIntervalMs ∧ intervalCfg.launchIntervalMs ≤ 2147483647 ∧
    launchTimes intervalCfg (List.replicate 8 inpContinue) initState
      = [500000000, 1000000000, 1375000000] ∧
    (List.replicate 8 inpContinue).length ≤ 8589934591 ∧
    List.Chain (fun a b => b - a ≥ intervalCfg.launchIntervalMs * 1000000)
      0 (launchTimes intervalCfg (List.replicate 8 inpContinue) initState) :=
  ⟨by decide, by decide, by decide, by decide,
    (launch_interval intervalCfg (by decide) (by decide)).2.2.2.1
      (List.replicate 8 inpContinue) (by decide)⟩

/-! ## The sequential scenario -/

theorem runLoop_reachable (cfg : Config) : ∀ (inps : List Input) (s s' : State),
    Reachable cfg s → runLoop cfg inps s = some s' → Reachable cfg s' := by
  intro inps
  induction inps with
  | nil =>
    intro s s' hs h
    unfold runLoop at h
    injection h with h; subst h; exact hs
  | cons inp rest ih =>
    intro s s' hs h
    unfold runLoop at h
    split at h
    · rename_i hc
      split at h
      · simp at h
      · rename_i s1 hb
        exact ih s1 s' (Reachable.iter inp hs hc hb) h
    · simp at h

theorem seqFinal_reachable : Reachable seqCfg seqFinal :=
  runLoop_reachable seqCfg seqInputs initState seqFinal Reachable.init (by decide)

/-- C15: with `simulLimit = 1` workers launch strictly sequentially.  At
every program point of the main loop at most one slot is occupied; whenever
the admission step launches, it does so from a state with `runningCount = 0`
and all 20 slots free; and with `totalProcs = 3` every loop-head state in
which the loop condition is false has `launchedCount = 3`. -/
theorem sequential_launches (cfg : Config) (hlim : cfg.simulLimit = 1) :
    (∀ s, Visited cfg s → occCount s.processTable ≤ 1) ∧
    (∀ (s s3 : State) (inp : Input) (simTime : Int), Visited cfg s →
      admitPhase cfg inp simTime s = some s3 → s3.launchedCount ≠ s.launchedCount →
      s.runningCount = 0 ∧ ∀ i, i < MAX_CHILDREN → (slot s.processTable i).occupied = 0) ∧
    (cfg.totalProcs = 3 → ∀ s, Reachable cfg s → ¬ loopCond cfg s → s.launchedCount = 3) := by
  refine ⟨?_, ?_, ?_⟩
  · intro s hs
    obtain ⟨⟨_, hc, _⟩, hsim, _⟩ := visited_inv hs
    have := hsim (by omega)
    omega
  · intro s s3 inp T hs h hne
    obtain ⟨⟨_, hc, _⟩, _, _⟩ := visited_inv hs
    rcases admitPhase_cases h with h3 | ⟨⟨_, hrc, _⟩, _, _, _, _, _⟩
    · rw [h3] at hne; exact absurd rfl hne
    · have hz : s.runningCount = 0 := by omega
      exact ⟨hz, occCount_eq_zero (by omega)⟩
  · intro htot s hs hexit
    obtain ⟨_, _, hlaunch⟩ := reachable_inv hs
    have := hlaunch (by omega)
    unfold loopCond at hexit
    omega

/-- A concrete instance: the scenario `seqCfg`, whose run on `seqInputs` ends
in `seqFinal` with the loop condition false and three workers launched. -/
theorem sequential_launches_witness :
    seqCfg.simulLimit = 1 ∧ seqCfg.totalProcs = 3 ∧
    runLoop seqCfg seqInputs initState = some seqFinal ∧
    Reachable seqCfg seqFinal ∧ ¬ loopCond seqCfg seqFinal ∧ seqFinal.launchedCount = 3 ∧
    ((∀ s, Visited seqCfg s → occCount s.processTable ≤ 1) ∧
    (∀ (s s3 : State) (inp : Input) (simTime : Int), Visited seqCfg s →
      admitPhase seqCfg inp simTime s = some s3 → s3.launchedCount ≠ s.launchedCount →
      s.runningCount = 0 ∧ ∀ i, i < MAX_CHILDREN → (slot s.processTable i).occupied = 0) ∧
    (seqCfg.totalProcs = 3 → ∀ s, Reachable seqCfg s → ¬ loopCond seqCfg s →
      s.launchedCount = 3)) :=
  ⟨rfl, rfl, by decide, seqFinal_reachable, by decide,
    (sequential_launches seqCfg rfl).2.2 rfl seqFinal seqFinal_reachable (by decide),
    sequential_launches seqCfg rfl⟩

end Oss
